import Mathlib

/-!
Verification of the CryptoFeeder market-data feeder against its
natural-language specification.

The development shallowly embeds the relevant parts of the Rust sources
(`protocol.rs`, `events.rs`, `data_parser.rs`, `packet_builder.rs`,
`connection_manager.rs`) into Lean:

* Rust `String` is modelled as `List Char`;
* `f64` prices and quantities are modelled as `ℚ` (exact rationals; the
  claims under study concern ordering, filtering and structural facts for
  which the IEEE rounding of `f64` is irrelevant, and `NaN` never arises
  from the decimal parser modelled here);
* machine integers are modelled as `Nat` / `Int`, with explicit `% 2 ^ w`
  or masking where the source manipulates bit patterns;
* fallible Rust functions returning `Result` are modelled with `Except`;
* the process-wide atomic sequence counter is modelled by explicit state
  passing of a `BuilderState`.

A handful of items referenced by the repository's demo binaries
(`MESSAGE_TYPE_INDEX_PRICE` etc., `build_single_value_packet`) are absent
from the provided library sources; those are modelled from the spec and
marked as such in their doc comments.
-/

namespace CryptoFeeder

/-! ### Generic list utilities -/

/-- Splitting a list into consecutive chunks of at most `n` elements, in
order — the model of Rust's `slice::chunks(n)`.  The auxiliary fuel
argument makes the recursion structural; `chunksOf` instantiates it with
the length of the list, which is always enough fuel. -/
def chunksAux (n : Nat) : Nat → List α → List (List α)
  | _, [] => []
  | 0, _ => []
  | fuel + 1, l => l.take n :: chunksAux n fuel (l.drop n)

/-- `chunksOf n l` is the list of consecutive chunks of `l` of size `n`
(the last chunk may be shorter).  Matches Rust `chunks(n)` for `n > 0`. -/
def chunksOf (n : Nat) (l : List α) : List (List α) :=
  chunksAux n l.length l

/-- Grouping a list by a key, with the arrival order preserved inside
every group.  This models the contents of the `HashMap<_, Vec<_>>`
groupings of `packet_builder.rs` (`entry(..).push`): the per-group lists
are exactly the source's, in arrival order; the iteration order *between*
groups is unspecified in the source (HashMap iteration) and no claim
under study depends on it. -/
def groupByKey [DecidableEq κ] (key : α → κ) : List α → List (κ × List α)
  | [] => []
  | a :: rest =>
    let grouped := groupByKey key rest
    if (grouped.lookup (key a)).isSome then
      grouped.map (fun g => if g.1 = key a then (g.1, a :: g.2) else g)
    else
      (key a, [a]) :: grouped

/-! ### Decimal number parsing

Model of Rust's `str::parse::<f64>()` restricted to plain decimal
literals (optional sign, integer digits, optional fractional part) — the
only forms produced by the exchange feeds and exercised by the claims.
The exotic forms accepted by Rust (`inf`, `NaN`, exponents) are not
modelled; no claim depends on them. -/

/-- The numeric value of a list of decimal digit characters, provided the
list is nonempty and all characters are digits. -/
def digitsVal : List Char → Option Nat
  | [] => none
  | [c] => if c.isDigit then some (c.toNat - '0'.toNat) else none
  | c :: rest =>
    if c.isDigit then
      (digitsVal rest).map (fun v => (c.toNat - '0'.toNat) * 10 ^ rest.length + v)
    else none

/-- Parse an unsigned decimal literal `digits [ '.' digits ]` (either side
of the dot may be empty, but not both) into an exact rational. -/
def parseUnsignedDec (s : List Char) : Option ℚ :=
  let intPart := s.takeWhile (fun c => c ≠ '.')
  let rest := s.dropWhile (fun c => c ≠ '.')
  match rest with
  | [] => (digitsVal intPart).map (fun v => (v : ℚ))
  | '.' :: frac =>
    if intPart = [] then
      (digitsVal frac).map (fun v => (v : ℚ) / (10 : ℚ) ^ frac.length)
    else if frac = [] then
      (digitsVal intPart).map (fun v => (v : ℚ))
    else
      match digitsVal intPart, digitsVal frac with
      | some i, some f => some ((i : ℚ) + (f : ℚ) / (10 : ℚ) ^ frac.length)
      | _, _ => none
  | _ => none

/-- Model of Rust `str::parse::<f64>()` on decimal literals: optional
sign, then an unsigned decimal. -/
def parseF64 (s : List Char) : Option ℚ :=
  match s with
  | '-' :: rest => (parseUnsignedDec rest).map Neg.neg
  | '+' :: rest => parseUnsignedDec rest
  | _ => parseUnsignedDec s

/-! ### Wire protocol (`protocol.rs`) -/

/-- `MESSAGE_TYPE_ORDER_BOOK` (protocol.rs). -/
def MESSAGE_TYPE_ORDER_BOOK : Nat := 0

/-- `MESSAGE_TYPE_TRADE_TICK` (protocol.rs). -/
def MESSAGE_TYPE_TRADE_TICK : Nat := 1

/-- Modelled from the spec: `MESSAGE_TYPE_INDEX_PRICE` (referenced by the
demo binaries but absent from the provided `protocol.rs`). -/
def MESSAGE_TYPE_INDEX_PRICE : Nat := 2

/-- Modelled from the spec: `MESSAGE_TYPE_MARK_PRICE`. -/
def MESSAGE_TYPE_MARK_PRICE : Nat := 3

/-- Modelled from the spec: `MESSAGE_TYPE_FUNDING_RATE`. -/
def MESSAGE_TYPE_FUNDING_RATE : Nat := 4

/-- Modelled from the spec: `MESSAGE_TYPE_LIQUIDATION`. -/
def MESSAGE_TYPE_LIQUIDATION : Nat := 5

/-- `PRICE_SCALE = 10^8` (protocol.rs). -/
def PRICE_SCALE : Int := 100000000

/-- `QUANTITY_SCALE = 10^8` (protocol.rs). -/
def QUANTITY_SCALE : Int := 100000000

/-- Modelled from the spec: the funding-rate scale referenced by the demo
binary (`FUNDING_RATE_SCALE`) is not defined in the provided sources; the
spec leaves the choice between `10^8` and `10^9` open and no claim depends
on the value.  `10^9` is chosen here. -/
def FUNDING_RATE_SCALE : Int := 1000000000

/-- Truncation toward zero of a rational, the rounding used by Rust's
`as i64` cast of an `f64`. -/
def ratTruncate (q : ℚ) : Int :=
  if 0 ≤ q then ⌊q⌋ else ⌈q⌉

/-- Rust `f64 as i64`: truncation toward zero, saturating at the `i64`
range boundaries. -/
def f64ToI64 (q : ℚ) : Int :=
  max (-(2 ^ 63)) (min (2 ^ 63 - 1) (ratTruncate q))

/-- The common 16-byte payload item of `protocol.rs`.  `TradeTickItem` and
`OrderBookItem` have literally identical layouts in the source
(`price: i64`, `quantity_with_flags: i64` with bit 63 a flag); they are
modelled by this single structure, with the signed 64-bit
`quantity_with_flags` represented by its 64-bit pattern as a `Nat`. -/
structure WireItem where
  price : Int
  quantityWithFlags : Nat
  deriving DecidableEq, Repr

/-- `set_quantity_and_flag`: mask the scaled quantity to bits 0–62 and put
the flag (is_ask / is_buyer_taker / is_sell) in bit 63.  The masking of
the i64 two's-complement pattern is expressed on the 64-bit pattern. -/
def packQuantityAndFlag (scaledQuantity : Int) (flag : Bool) : Nat :=
  let pattern := (scaledQuantity % (2 ^ 64 : Int)).toNat
  let masked := pattern % 2 ^ 63
  if flag then masked + 2 ^ 63 else masked

/-- `TradeTickItem::new` / `OrderBookItem::new`: scale price and quantity
by `10^8`, truncate (`as i64`) and pack the flag. -/
def WireItem.new (price quantity : ℚ) (flag : Bool) : WireItem :=
  { price := f64ToI64 (price * (PRICE_SCALE : ℚ))
    quantityWithFlags := packQuantityAndFlag (f64ToI64 (quantity * (QUANTITY_SCALE : ℚ))) flag }

/-- The bit-63 flag accessor (`is_ask` / `is_buyer_taker`). -/
def WireItem.flag (it : WireItem) : Bool :=
  2 ^ 63 ≤ it.quantityWithFlags

/-- The masked quantity accessor (`quantity()`), bits 0–62. -/
def WireItem.quantity (it : WireItem) : Nat :=
  it.quantityWithFlags % 2 ^ 63

/-- ConnectionStatus event payload (`events.rs`), 16 bytes on the wire. -/
structure ConnectionStatus where
  exchangeId : Nat
  previousStatus : Nat
  currentStatus : Nat
  retryCount : Nat
  errorCode : Nat
  deriving DecidableEq, Repr

/-- The five `SystemEvent` kinds of `events.rs`, each with its 16-byte
payload fields. -/
inductive SystemEvent where
  | heartbeat (uptimeSeconds activeConnections totalPacketsSent : Nat)
  | connectionStatus (cs : ConnectionStatus)
  | subscriptionStatus (exchangeId subscriptionType status : Nat) (symbolShort : List Char)
  | systemStats (cpu mem pps bps : Nat)
  | errorEvent (errorType exchangeId severity : Nat) (errorDetails : Nat)
  deriving DecidableEq, Repr

/-- A 16-byte payload item of a datagram: a market-data item, a
single-value payload (spec-modelled), a liquidation item, or a system
event payload. -/
inductive PItem where
  | tick (it : WireItem)
  | single (value : Int)
  | liq (it : WireItem)
  | event (ev : SystemEvent)
  deriving DecidableEq, Repr

/-- The 67-byte packet header of `protocol.rs` (`#[repr(C, packed)]`,
compile-time asserted to be 67 bytes).  The `symbol` and `exchange`
fields hold the sanitized, ≤ 19-character content; the NUL padding of the
20-byte arrays carries no information and is elided. -/
structure PacketHeader where
  protocolVersion : Nat
  sequenceNumber : Nat
  exchangeTimestamp : Nat
  localTimestamp : Nat
  messageType : Nat
  flagsAndCount : Nat
  symbol : List Char
  exchange : List Char
  deriving DecidableEq, Repr

/-- `PacketHeader::new`. -/
def PacketHeader.new : PacketHeader :=
  { protocolVersion := 1
    sequenceNumber := 0
    exchangeTimestamp := 0
    localTimestamp := 0
    messageType := 0
    flagsAndCount := 0
    symbol := []
    exchange := [] }

/-- The `flags_and_count` byte produced by
`PacketHeader::set_flags_and_count`: `count` saturated at 80 in bits 0–6,
`is_last` in bit 7. -/
def encodeFlagsAndCount (isLast : Bool) (count : Nat) : Nat :=
  let itemCount := Nat.land (min count 80) 127
  if isLast then Nat.lor itemCount 128 else itemCount

/-- `PacketHeader::set_flags_and_count` (the `count: u8` argument is a
`Nat`; every caller in the source passes a chunk length ≤ 80 < 256, so
the `u8` cast is the identity there). -/
def PacketHeader.setFlagsAndCount (h : PacketHeader) (isLast : Bool) (count : Nat) :
    PacketHeader :=
  { h with flagsAndCount := encodeFlagsAndCount isLast count }

/-- `PacketHeader::is_last`: bit 7 of `flags_and_count`. -/
def PacketHeader.isLastFlag (h : PacketHeader) : Bool :=
  Nat.land h.flagsAndCount 128 ≠ 0

/-- `PacketHeader::item_count`: bits 0–6 of `flags_and_count`. -/
def PacketHeader.itemCount (h : PacketHeader) : Nat :=
  Nat.land h.flagsAndCount 127

/-- The character filter of `PacketHeader::set_symbol` /
`set_exchange`: ASCII alphanumerics plus `^`, `-`, `_`. -/
def allowedHeaderChar (c : Char) : Bool :=
  c.isAlphanum || c = '^' || c = '-' || c = '_'

/-- `set_symbol` / `set_exchange`: filter to the allowed characters and
truncate to 19 bytes (space for the NUL terminator).  The source's
`trim()` is subsumed by the filter, which removes whitespace anywhere. -/
def sanitizeHeaderField (s : List Char) : List Char :=
  (s.filter allowedHeaderChar).take 19

/-- `PacketHeader::set_symbol`. -/
def PacketHeader.setSymbol (h : PacketHeader) (s : List Char) : PacketHeader :=
  { h with symbol := sanitizeHeaderField s }

/-- `PacketHeader::set_exchange`. -/
def PacketHeader.setExchange (h : PacketHeader) (s : List Char) : PacketHeader :=
  { h with exchange := sanitizeHeaderField s }

/-- Size in bytes of the serialized header (`size_of::<PacketHeader>()`,
compile-time asserted to 67 in protocol.rs). -/
def headerByteSize : Nat := 67

/-- Size in bytes of every serialized payload item (`size_of` of
`TradeTickItem` / `OrderBookItem` / every event payload, all compile-time
asserted to 16). -/
def itemByteSize : Nat := 16

/-! ### System events (`events.rs`) -/

/-- `MESSAGE_TYPE_SYSTEM_HEARTBEAT` (events.rs). -/
def MESSAGE_TYPE_SYSTEM_HEARTBEAT : Nat := 100

/-- `MESSAGE_TYPE_CONNECTION_STATUS` (events.rs). -/
def MESSAGE_TYPE_CONNECTION_STATUS : Nat := 101

/-- `MESSAGE_TYPE_SUBSCRIPTION_STATUS` (events.rs). -/
def MESSAGE_TYPE_SUBSCRIPTION_STATUS : Nat := 102

/-- `MESSAGE_TYPE_SYSTEM_STATS` (events.rs). -/
def MESSAGE_TYPE_SYSTEM_STATS : Nat := 103

/-- `MESSAGE_TYPE_ERROR_EVENT` (events.rs). -/
def MESSAGE_TYPE_ERROR_EVENT : Nat := 104

/-- Connection state constants (events.rs): DISCONNECTED. -/
def CONNECTION_STATUS_DISCONNECTED : Nat := 0

/-- CONNECTING. -/
def CONNECTION_STATUS_CONNECTING : Nat := 1

/-- CONNECTED. -/
def CONNECTION_STATUS_CONNECTED : Nat := 2

/-- RECONNECTING. -/
def CONNECTION_STATUS_RECONNECTING : Nat := 3

/-- FAILED. -/
def CONNECTION_STATUS_FAILED : Nat := 4

/-- `SystemEvent::get_message_type`. -/
def SystemEvent.getMessageType : SystemEvent → Nat
  | .heartbeat _ _ _ => MESSAGE_TYPE_SYSTEM_HEARTBEAT
  | .connectionStatus _ => MESSAGE_TYPE_CONNECTION_STATUS
  | .subscriptionStatus _ _ _ _ => MESSAGE_TYPE_SUBSCRIPTION_STATUS
  | .systemStats _ _ _ _ => MESSAGE_TYPE_SYSTEM_STATS
  | .errorEvent _ _ _ _ => MESSAGE_TYPE_ERROR_EVENT

/-- `SystemEvent::get_payload_bytes`, at the granularity of one 16-byte
item. -/
def SystemEvent.getPayload (e : SystemEvent) : PItem :=
  .event e

/-- `SystemEvent::get_symbol`: the stored short symbol for subscription
events, `"SYSTEM"` otherwise. -/
def SystemEvent.getSymbol : SystemEvent → List Char
  | .subscriptionStatus _ _ _ sym => sym
  | _ => "SYSTEM".toList

/-- `exchange_name_to_id` (events.rs). -/
def exchangeNameToId (name : List Char) : Nat :=
  let lower := name.map Char.toLower
  if lower = "binance".toList then 1
  else if lower = "okx".toList then 2
  else if lower = "bybit".toList then 3
  else if lower = "upbit".toList then 4
  else if lower = "bithumb".toList then 5
  else if lower = "coinbase".toList then 6
  else 0

/-! ### Error type (`errors.rs`)

The error messages (Korean format strings) carry no information used by
any claim and are elided. -/

/-- `CryptoFeederError`, with the variants reachable from the embedded
code paths. -/
inductive CryptoFeederError where
  | jsonParseError
  | serializationError
  | other
  deriving DecidableEq, Repr

/-! ### Canonical records (`data_parser.rs`) -/

/-- `StandardizedTrade`. -/
structure StandardizedTrade where
  symbol : List Char
  exchange : List Char
  price : ℚ
  quantity : ℚ
  isBuyerTaker : Bool
  timestamp : Nat
  deriving DecidableEq, Repr

/-- `StandardizedTradeBatch`. -/
structure StandardizedTradeBatch where
  symbol : List Char
  exchange : List Char
  exchangeTimestamp : Nat
  trades : List StandardizedTrade
  deriving DecidableEq, Repr

/-- `OrderBookLevel`. -/
structure OrderBookLevel where
  price : ℚ
  quantity : ℚ
  deriving DecidableEq, Repr

/-- `StandardizedOrderBookUpdate`. -/
structure StandardizedOrderBookUpdate where
  symbol : List Char
  exchange : List Char
  bids : List OrderBookLevel
  asks : List OrderBookLevel
  timestamp : Nat
  deriving DecidableEq, Repr

/-- `ParsedData` (data_parser.rs). -/
inductive ParsedData where
  | trade (t : StandardizedTrade)
  | tradeBatch (b : StandardizedTradeBatch)
  | orderBook (ob : StandardizedOrderBookUpdate)
  | indexPrice (symbol exchange : List Char) (value : ℚ) (timestamp : Nat)
  | markPrice (symbol exchange : List Char) (value : ℚ) (timestamp : Nat)
  | fundingRate (symbol exchange : List Char) (value : ℚ) (timestamp : Nat)
  | liquidation (symbol exchange : List Char) (price quantity : ℚ) (isSell : Bool)
      (timestamp : Nat)
  | multi (items : List ParsedData)
  deriving Repr

/-! ### JSON model

The JSON values reaching the Binance parser, as produced by
`simd_json` / `serde_json`.  Numbers in the feeds of interest are
unsigned integers (timestamps, update ids); prices arrive as strings.
A failed `simd_json::from_slice` on raw bytes is modelled by feeding the
parser `none`. -/

/-- A JSON value. -/
inductive Json where
  | null
  | bool (b : Bool)
  | num (n : Int)
  | str (s : List Char)
  | arr (elems : List Json)
  | obj (fields : List (List Char × Json))
  deriving Repr

/-- `Value::get(key)`: first binding of `key` in an object, `None` on any
other value. -/
def Json.get (key : List Char) : Json → Option Json
  | .obj fields => fields.lookup key
  | _ => none

/-- `Value::as_str`. -/
def Json.asStr : Json → Option (List Char)
  | .str s => some s
  | _ => none

/-- `Value::as_u64`. -/
def Json.asU64 : Json → Option Nat
  | .num n => if 0 ≤ n then some n.toNat else none
  | _ => none

/-- `Value::as_bool`. -/
def Json.asBool : Json → Option Bool
  | .bool b => some b
  | _ => none

/-! ### Symbol and exchange normalization (`data_parser.rs`) -/

/-- The quote-suffix test used by `normalize_binance_symbol`, for one
candidate quote currency. -/
def endsWithQuote (u quote : List Char) : Bool :=
  quote.isSuffixOf u

/-- The recognized quote suffix `USDT`. -/
def quoteUSDT : List Char := "USDT".toList

/-- The recognized quote suffix `USDC`. -/
def quoteUSDC : List Char := "USDC".toList

/-- The recognized quote suffix `BUSD`. -/
def quoteBUSD : List Char := "BUSD".toList

/-- The recognized quote suffix `BTC`. -/
def quoteBTC : List Char := "BTC".toList

/-- The recognized quote suffix `ETH`. -/
def quoteETH : List Char := "ETH".toList

/-- The recognized quote suffix `BNB`. -/
def quoteBNB : List Char := "BNB".toList

/-- `DataParser::normalize_binance_symbol`: uppercase, match the longest
recognized quote suffix in priority order (USDT, USDC, BUSD, BTC, ETH,
BNB) and emit `BASE^QUOTE` (`format!("{}^USDT", base)` etc.); otherwise
return the input unchanged. -/
def normalizeBinanceSymbol (symbol : List Char) : List Char :=
  let upper := symbol.map Char.toUpper
  if endsWithQuote upper quoteUSDT then
    upper.take (upper.length - 4) ++ ('^' :: quoteUSDT)
  else if endsWithQuote upper quoteUSDC then
    upper.take (upper.length - 4) ++ ('^' :: quoteUSDC)
  else if endsWithQuote upper quoteBUSD then
    upper.take (upper.length - 4) ++ ('^' :: quoteBUSD)
  else if endsWithQuote upper quoteBTC then
    upper.take (upper.length - 3) ++ ('^' :: quoteBTC)
  else if endsWithQuote upper quoteETH then
    upper.take (upper.length - 3) ++ ('^' :: quoteETH)
  else if endsWithQuote upper quoteBNB then
    upper.take (upper.length - 3) ++ ('^' :: quoteBNB)
  else
    symbol

/-- Whether the uppercased input carries one of the six recognized quote
suffixes, i.e. whether `normalize_binance_symbol` rewrites its input. -/
def hasQuoteSuffix (u : List Char) : Bool :=
  endsWithQuote u quoteUSDT || endsWithQuote u quoteUSDC ||
    endsWithQuote u quoteBUSD || endsWithQuote u quoteBTC ||
    endsWithQuote u quoteETH || endsWithQuote u quoteBNB

/-- `DataParser::normalize_exchange_name`, restricted to the Binance rows
exercised by the embedded parser ("binance" with "spot" / "futures"). -/
def normalizeExchangeName (exchange marketType : List Char) : List Char :=
  if exchange.map Char.toLower = "binance".toList then
    if marketType = "spot".toList then "BinanceSpot".toList
    else if marketType = "futures".toList then "BinanceFutures".toList
    else "BinanceSpot".toList
  else exchange ++ ('_' :: marketType)

/-! ### The Binance message parser (`data_parser.rs`) -/

/-- The event object of a Binance frame: the `data` member of a combined
stream frame, or the root itself for the single-stream format. -/
def eventObjOf (root : Json) : Json :=
  match root.get ("data".toList) with
  | some d => d
  | none => root

/-- The dispatched event type: `event_obj.get("e").and_then(as_str)`. -/
def binanceEventType (root : Json) : Option (List Char) :=
  ((eventObjOf root).get ("e".toList)).bind Json.asStr

/-- One `[price_str, qty_str]` entry of a depth update, as deserialized
by serde into `[String; 2]`: exactly a two-element array of strings. -/
def Json.asStringPair : Json → Option (List Char × List Char)
  | .arr [.str p, .str q] => some (p, q)
  | _ => none

/-- The `b` / `a` member of a depth update: an array of `[String; 2]`. -/
def Json.asLevelStrs : Json → Option (List (List Char × List Char))
  | .arr elems => elems.mapM Json.asStringPair
  | _ => none

/-- `convert_binance_depth_update`'s per-side loop: parse each price and
quantity string to `f64`, failing the message on the first parse error. -/
def convertLevels : List (List Char × List Char) →
    Except CryptoFeederError (List OrderBookLevel)
  | [] => .ok []
  | (p, q) :: rest =>
    match parseF64 p, parseF64 q with
    | some pf, some qf =>
      (convertLevels rest).map (fun ls => { price := pf, quantity := qf } :: ls)
    | _, _ => .error .jsonParseError

/-- The `depthUpdate` arm: serde requires `E`, `s`, `U`, `u`, `b`, `a`
(`e` was already read); then `convert_binance_depth_update` parses every
level and stamps `event_time * 10^6` ns. -/
def parseDepthUpdateArm (eo : Json) : Except CryptoFeederError ParsedData :=
  match (eo.get ("E".toList)).bind Json.asU64, (eo.get ("s".toList)).bind Json.asStr,
      (eo.get ("U".toList)).bind Json.asU64, (eo.get ("u".toList)).bind Json.asU64,
      (eo.get ("b".toList)).bind Json.asLevelStrs,
      (eo.get ("a".toList)).bind Json.asLevelStrs with
  | some eventTime, some sym, some _, some _, some bidStrs, some askStrs =>
    match convertLevels bidStrs, convertLevels askStrs with
    | .ok bids, .ok asks =>
      .ok (.orderBook
        { symbol := normalizeBinanceSymbol sym
          exchange := normalizeExchangeName ("binance".toList) ("spot".toList)
          bids := bids
          asks := asks
          timestamp := eventTime * 1000000 })
    | _, _ => .error .jsonParseError
  | _, _, _, _, _, _ => .error .jsonParseError

/-- The `markPriceUpdate` arm: `s`, `p`, `i`, `r` are required strings
(each missing field is an error), `E` defaults to 0, and the three value
strings must parse as `f64`; on success the arm yields the three
single-value records sharing one timestamp. -/
def parseMarkPriceArm (eo : Json) : Except CryptoFeederError ParsedData :=
  match (eo.get ("s".toList)).bind Json.asStr, (eo.get ("p".toList)).bind Json.asStr,
      (eo.get ("i".toList)).bind Json.asStr, (eo.get ("r".toList)).bind Json.asStr with
  | some sym, some mark, some index, some funding =>
    let ts := (((eo.get ("E".toList)).bind Json.asU64).getD 0) * 1000000
    let symbolStd := normalizeBinanceSymbol sym
    let exchange := normalizeExchangeName ("binance".toList) ("futures".toList)
    match parseF64 mark, parseF64 index, parseF64 funding with
    | some markF, some indexF, some fundingF =>
      .ok (.multi
        [.indexPrice symbolStd exchange indexF ts,
         .markPrice symbolStd exchange markF ts,
         .fundingRate symbolStd exchange fundingF ts])
    | _, _, _ => .error .jsonParseError
  | _, _, _, _ => .error .jsonParseError

/-- The `forceOrder` arm: only the nested `o` object and its symbol `s`
are required; side, price, quantity and timestamp fall back to defaults
(`""`, `"0"`, `0`) and unparseable numbers fall back to `0.0`
(`unwrap_or`), so no number parse failure fails the message here. -/
def parseForceOrderArm (eo : Json) : Except CryptoFeederError ParsedData :=
  match eo.get ("o".toList) with
  | none => .error .jsonParseError
  | some o =>
    match (o.get ("s".toList)).bind Json.asStr with
    | none => .error .jsonParseError
    | some sym =>
      let side := ((o.get ("S".toList)).bind Json.asStr).getD []
      let price := (((o.get ("ap".toList)).orElse (fun _ => o.get ("p".toList))).bind
        Json.asStr).getD ("0".toList)
      let qty := ((o.get ("q".toList)).bind Json.asStr).getD ("0".toList)
      let ts := (((eo.get ("E".toList)).bind Json.asU64).getD 0) * 1000000
      let priceF := (parseF64 price).getD 0
      let qtyF := (parseF64 qty).getD 0
      let isSell := side.map Char.toLower = "sell".toList
      .ok (.liquidation (normalizeBinanceSymbol sym)
        (normalizeExchangeName ("binance".toList) ("futures".toList)) priceF qtyF isSell ts)

/-- The `trade` arm: serde requires `E`, `s`, `t`, `p`, `q`, `T`, `m`
(`b`, `a` are optional); `convert_binance_trade` then parses the price
and quantity strings, with `is_buyer_taker = !m` and `T * 10^6` ns. -/
def parseTradeArm (eo : Json) : Except CryptoFeederError ParsedData :=
  match (eo.get ("E".toList)).bind Json.asU64, (eo.get ("s".toList)).bind Json.asStr,
      (eo.get ("t".toList)).bind Json.asU64, (eo.get ("p".toList)).bind Json.asStr,
      (eo.get ("q".toList)).bind Json.asStr, (eo.get ("T".toList)).bind Json.asU64,
      (eo.get ("m".toList)).bind Json.asBool with
  | some _, some sym, some _, some p, some q, some tradeTime, some m =>
    match parseF64 p, parseF64 q with
    | some pf, some qf =>
      .ok (.trade
        { symbol := normalizeBinanceSymbol sym
          exchange := normalizeExchangeName ("binance".toList) ("spot".toList)
          price := pf
          quantity := qf
          isBuyerTaker := !m
          timestamp := tradeTime * 1000000 })
    | _, _ => .error .jsonParseError
  | _, _, _, _, _, _, _ => .error .jsonParseError

/-- The `aggTrade` arm: serde requires `E`, `s`, `p`, `q`, `T`, `m` (`a`
is optional); `convert_binance_agg_trade` yields a futures-tagged trade,
wrapped into a one-element `TradeBatch`. -/
def parseAggTradeArm (eo : Json) : Except CryptoFeederError ParsedData :=
  match (eo.get ("E".toList)).bind Json.asU64, (eo.get ("s".toList)).bind Json.asStr,
      (eo.get ("p".toList)).bind Json.asStr, (eo.get ("q".toList)).bind Json.asStr,
      (eo.get ("T".toList)).bind Json.asU64, (eo.get ("m".toList)).bind Json.asBool with
  | some _, some sym, some p, some q, some tradeTime, some m =>
    match parseF64 p, parseF64 q with
    | some pf, some qf =>
      let t : StandardizedTrade :=
        { symbol := normalizeBinanceSymbol sym
          exchange := normalizeExchangeName ("binance".toList) ("futures".toList)
          price := pf
          quantity := qf
          isBuyerTaker := !m
          timestamp := tradeTime * 1000000 }
      .ok (.tradeBatch
        { symbol := t.symbol
          exchange := t.exchange
          exchangeTimestamp := t.timestamp
          trades := [t] })
    | _, _ => .error .jsonParseError
  | _, _, _, _, _, _ => .error .jsonParseError

/-- `DataParser::parse_binance_message`.  A `none` input models a raw
byte sequence rejected by `simd_json::from_slice` (malformed JSON). -/
def parseBinanceMessage (input : Option Json) : Except CryptoFeederError ParsedData :=
  match input with
  | none => .error .jsonParseError
  | some root =>
    let eo := eventObjOf root
    match binanceEventType root with
    | none => .error .jsonParseError
    | some et =>
      if et = "depthUpdate".toList then parseDepthUpdateArm eo
      else if et = "markPriceUpdate".toList then parseMarkPriceArm eo
      else if et = "forceOrder".toList then parseForceOrderArm eo
      else if et = "trade".toList then parseTradeArm eo
      else if et = "aggTrade".toList then parseAggTradeArm eo
      else .error .jsonParseError

/-- The exchange-override step of `DataParser::parse_message` for one
non-`Multi` record: the session's display name replaces the parser's
default exchange tag. -/
def adjustExchangeOne (exchange : List Char) : ParsedData → ParsedData
  | .trade t => .trade { t with exchange := exchange }
  | .tradeBatch b => .tradeBatch { b with exchange := exchange }
  | .orderBook ob => .orderBook { ob with exchange := exchange }
  | .indexPrice s _ v ts => .indexPrice s exchange v ts
  | .markPrice s _ v ts => .markPrice s exchange v ts
  | .fundingRate s _ v ts => .fundingRate s exchange v ts
  | .liquidation s _ p q isSell ts => .liquidation s exchange p q isSell ts
  | .multi _ => .multi []

/-- The exchange-override step of `DataParser::parse_message`: one level
of `Multi` is mapped element-wise (a nested `Multi` is emptied, exactly
as in the source). -/
def adjustExchange (exchange : List Char) : ParsedData → ParsedData
  | .multi items => .multi (items.map (adjustExchangeOne exchange))
  | d => adjustExchangeOne exchange d

/-- `DataParser::parse_message` for a Binance-family session: parse with
the Binance parser, then override the exchange tag with the session's
display name. -/
def parseMessage (exchange : List Char) (input : Option Json) :
    Except CryptoFeederError ParsedData :=
  (parseBinanceMessage input).map (adjustExchange exchange)

/-! ### Packet builder (`packet_builder.rs`)

The builder's single piece of state — the process-wide atomic sequence
counter (`sequence_counter: AtomicU64`, initial value 1) — is modelled by
explicit state passing.  `now` models the wall clock read by
`get_current_timestamp_nanos`; no claim depends on it. -/

/-- The mutable state of a `PacketBuilder`. -/
structure BuilderState where
  seq : Nat
  now : Nat
  deriving DecidableEq, Repr

/-- `PacketBuilder::new`: the sequence counter starts at 1. -/
def initialBuilderState (now : Nat) : BuilderState :=
  { seq := 1, now := now }

/-- `sequence_counter.fetch_add(1, SeqCst)`. -/
def fetchAddSeq (st : BuilderState) : Nat × BuilderState :=
  (st.seq, { st with seq := st.seq + 1 })

/-- A built UDP datagram.  The source stores the serialized bytes
(`data: Vec<u8>`) and their length; the model keeps the structured view
(header and 16-byte items) together with the byte length. -/
structure UdpPacket where
  header : PacketHeader
  items : List PItem
  size : Nat
  deriving DecidableEq, Repr

/-- `PacketBuilder::create_packet`: assemble header bytes plus item
bytes; error with `SerializationError` when the datagram would exceed
1472 bytes, succeed otherwise. -/
def createPacket (header : PacketHeader) (items : List PItem) :
    Except CryptoFeederError UdpPacket :=
  let size := headerByteSize + itemByteSize * items.length
  if 1472 < size then .error .serializationError
  else .ok { header := header, items := items, size := size }

/-- `PacketBuilder::create_packet_from_flat`: identical to
`create_packet` up to the byte-buffer plumbing (the payload pool is a
performance device with no observable effect on the built packet). -/
def createPacketFromFlat (header : PacketHeader) (items : List PItem) :
    Except CryptoFeederError UdpPacket :=
  createPacket header items

/-- `PacketBuilder::setup_header`: stamp protocol version, the next
sequence number, the record's exchange timestamp, the wall clock, the
message type and the sanitized symbol/exchange. -/
def setupHeader (st : BuilderState) (symbol exchange : List Char)
    (messageType exchangeTimestamp : Nat) : PacketHeader × BuilderState :=
  (({ PacketHeader.new with
      protocolVersion := 1
      sequenceNumber := (fetchAddSeq st).1
      exchangeTimestamp := exchangeTimestamp
      localTimestamp := st.now
      messageType := messageType }).setSymbol symbol |>.setExchange exchange,
   (fetchAddSeq st).2)

/-- A builder computation: explicit state passing for the sequence
counter, `Except` for the `Result` of the source. -/
def Builder : Type :=
  BuilderState → Except CryptoFeederError (List UdpPacket) × BuilderState

/-- The empty builder (no packets). -/
def bnil : Builder := fun st => (.ok [], st)

/-- Sequential composition of two packet-producing loops, aborting on the
first error exactly as the source's `?` operator does (packets built
before the failure are discarded, but their sequence numbers stay
consumed). -/
def bappend (f g : Builder) : Builder := fun st =>
  match f st with
  | (.ok ps, st1) =>
    match g st1 with
    | (.ok qs, st2) => (.ok (ps ++ qs), st2)
    | (.error e, st2) => (.error e, st2)
  | (.error e, st1) => (.error e, st1)

/-- The chunk-emission loop shared by the trade and order-book paths of
`packet_builder.rs`: for the chunk with index `i` out of `total`, set up
a header, set `is_last = (i = total - 1)` and `item_count` to the chunk
length, build the packet, and recurse; abort on the first error. -/
def emitChunksAux (messageType : Nat) (symbol exchange : List Char)
    (exchangeTimestamp total : Nat) :
    Nat → List (List PItem) → Builder
  | _, [], st => (.ok [], st)
  | i, chunk :: rest, st =>
    let h := ((setupHeader st symbol exchange messageType exchangeTimestamp).1).setFlagsAndCount
      (i = total - 1) chunk.length
    let st1 := (setupHeader st symbol exchange messageType exchangeTimestamp).2
    match createPacket h chunk with
    | .error e => (.error e, st1)
    | .ok p =>
      match emitChunksAux messageType symbol exchange exchangeTimestamp total
          (i + 1) rest st1 with
      | (.ok ps, st2) => (.ok (p :: ps), st2)
      | (.error e, st2) => (.error e, st2)

/-- The `TradeTickItem` built from a standardized trade. -/
def mkTradeItem (t : StandardizedTrade) : PItem :=
  .tick (WireItem.new t.price t.quantity t.isBuyerTaker)

/-- The trade comparator of `packet_builder.rs` (both trade paths):
taker-buy ("ask") ticks first in ascending price, then taker-sell
("bid") ticks in descending price.  `partial_cmp(..).unwrap_or(Equal)`
is total on the rational model. -/
def cmpQ (a b : ℚ) : Ordering :=
  if a < b then .lt else if b < a then .gt else .eq

/-- The comparator passed to `sort_by` in both trade paths. -/
def tradeCmp (a b : StandardizedTrade) : Ordering :=
  match a.isBuyerTaker, b.isBuyerTaker with
  | true, true => cmpQ a.price b.price
  | false, false => cmpQ b.price a.price
  | true, false => .lt
  | false, true => .gt

/-- The total preorder induced by `tradeCmp` ("not greater"). -/
def tradeLe (a b : StandardizedTrade) : Prop :=
  tradeCmp a b ≠ .gt

instance : DecidableRel tradeLe := fun a b => by
  unfold tradeLe
  infer_instance

/-- The stable sort of a trade group by `tradeCmp`.  Rust's
`Vec::sort_by` is a stable sort; a stable sort by a total preorder has a
unique output, so the insertion sort used here is extensionally equal to
the source's merge sort. -/
def sortTradesStable (l : List StandardizedTrade) : List StandardizedTrade :=
  l.insertionSort tradeLe

/-- `PacketBuilder::build_trade_batch_packets` (WS-message batch path):
sort the batch's trades, split them into chunks of 80 and emit one
packet per chunk with the batch's common symbol, exchange and
exchange timestamp. -/
def buildTradeBatchPackets (batch : StandardizedTradeBatch) : Builder := fun st =>
  if batch.trades = [] then (.ok [], st)
  else
    let sorted := sortTradesStable batch.trades
    let chunks := (chunksOf 80 sorted).map (fun c => c.map mkTradeItem)
    emitChunksAux MESSAGE_TYPE_TRADE_TICK batch.symbol batch.exchange
      batch.exchangeTimestamp chunks.length 0 chunks st

/-- The inner (symbol, exchange) grouping loop of
`build_trade_packets_batch`: one emission per group, chunked at 50
items. -/
def buildSymbolGroups (exchangeTimestamp : Nat) :
    List ((List Char × List Char) × List StandardizedTrade) → Builder
  | [] => bnil
  | ((sym, ex), groupTrades) :: rest =>
    bappend
      (fun st =>
        let chunks := chunksOf 50 (groupTrades.map mkTradeItem)
        emitChunksAux MESSAGE_TYPE_TRADE_TICK sym ex exchangeTimestamp
          chunks.length 0 chunks st)
      (buildSymbolGroups exchangeTimestamp rest)

/-- The outer timestamp grouping loop of `build_trade_packets_batch`:
sort each timestamp group stably, then regroup it by (symbol,
exchange). -/
def buildTimestampGroups : List (Nat × List StandardizedTrade) → Builder
  | [] => bnil
  | (ts, group) :: rest =>
    bappend
      (buildSymbolGroups ts
        (groupByKey (fun t => (t.symbol, t.exchange)) (sortTradesStable group)))
      (buildTimestampGroups rest)

/-- `PacketBuilder::build_trade_packets_batch` (single-trade /
compatibility path, public API): group by timestamp, sort each group,
group by symbol and exchange, and emit with chunk size 50. -/
def buildTradePacketsBatch (trades : List StandardizedTrade) : Builder := fun st =>
  if trades = [] then (.ok [], st)
  else buildTimestampGroups (groupByKey (fun t => t.timestamp) trades) st

/-- `PacketBuilder::build_trade_packets`: a single trade goes through the
batch path as a one-element vector. -/
def buildTradePackets (t : StandardizedTrade) : Builder :=
  buildTradePacketsBatch [t]

/-- The descending-price preorder used for bids
(`sort_by(|a, b| b.price.partial_cmp(&a.price)..)`). -/
def levelDescLe (a b : OrderBookLevel) : Prop :=
  cmpQ b.price a.price ≠ .gt

/-- The ascending-price preorder used for asks. -/
def levelAscLe (a b : OrderBookLevel) : Prop :=
  cmpQ a.price b.price ≠ .gt

instance : DecidableRel levelDescLe := fun a b => by
  unfold levelDescLe
  infer_instance

instance : DecidableRel levelAscLe := fun a b => by
  unfold levelAscLe
  infer_instance

/-- The bid items of an order-book update: bids sorted by descending
price, zero-quantity levels dropped, converted with `is_ask = false`. -/
def orderBookBidItems (ob : StandardizedOrderBookUpdate) : List PItem :=
  ((ob.bids.insertionSort levelDescLe).filter (fun l => decide (0 < l.quantity))).map
    (fun l => PItem.tick (WireItem.new l.price l.quantity false))

/-- The ask items of an order-book update: asks sorted by ascending
price, zero-quantity levels dropped, converted with `is_ask = true`. -/
def orderBookAskItems (ob : StandardizedOrderBookUpdate) : List PItem :=
  ((ob.asks.insertionSort levelAscLe).filter (fun l => decide (0 < l.quantity))).map
    (fun l => PItem.tick (WireItem.new l.price l.quantity true))

/-- `PacketBuilder::build_order_book_packets`: bids (descending, filtered)
before asks (ascending, filtered), chunked at 80 items. -/
def buildOrderBookPackets (ob : StandardizedOrderBookUpdate) : Builder := fun st =>
  let allItems := orderBookBidItems ob ++ orderBookAskItems ob
  if allItems = [] then (.ok [], st)
  else
    let chunks := chunksOf 80 allItems
    emitChunksAux MESSAGE_TYPE_ORDER_BOOK ob.symbol ob.exchange ob.timestamp
      chunks.length 0 chunks st

/-- `PacketBuilder::build_event_packet_with_exchange`: one datagram, one
item, `is_last = true`; both timestamps are the wall clock. -/
def buildEventPacketWithExchange (event : SystemEvent) (exchangeDisplay : List Char)
    (st : BuilderState) : Except CryptoFeederError UdpPacket × BuilderState :=
  let currentTimestamp := st.now
  let h := { PacketHeader.new with
    protocolVersion := 1
    sequenceNumber := (fetchAddSeq st).1
    exchangeTimestamp := currentTimestamp
    localTimestamp := currentTimestamp
    messageType := event.getMessageType }
  let h := ((h.setFlagsAndCount true 1).setSymbol event.getSymbol).setExchange
    exchangeDisplay
  (createPacket h [event.getPayload], (fetchAddSeq st).2)

/-- Modelled from the spec: `build_single_value_packet` (called by the
demo binaries with message types 2/3/4 but absent from the provided
`packet_builder.rs`): one datagram with a single 16-byte value item,
`item_count = 1`, `is_last = true`, header stamped via the common header
fill. -/
def buildSingleValuePacket (symbol exchange : List Char) (messageType ts : Nat)
    (value : Int) (st : BuilderState) :
    Except CryptoFeederError UdpPacket × BuilderState :=
  let h := ((setupHeader st symbol exchange messageType ts).1).setFlagsAndCount true 1
  (createPacket h [PItem.single value], (setupHeader st symbol exchange messageType ts).2)

/-- Modelled from the spec: `build_liquidation_packet` (message type 5,
price plus quantity with `is_sell` in bit 63, one item per datagram). -/
def buildLiquidationPacket (symbol exchange : List Char) (ts : Nat)
    (price quantity : ℚ) (isSell : Bool) (st : BuilderState) :
    Except CryptoFeederError UdpPacket × BuilderState :=
  let h := ((setupHeader st symbol exchange MESSAGE_TYPE_LIQUIDATION ts).1).setFlagsAndCount
    true 1
  (createPacket h [PItem.liq (WireItem.new price quantity isSell)],
   (setupHeader st symbol exchange MESSAGE_TYPE_LIQUIDATION ts).2)

/-- Lift a one-packet builder into a `Builder`. -/
def liftOne (f : BuilderState → Except CryptoFeederError UdpPacket × BuilderState) :
    Builder := fun st =>
  match f st with
  | (.ok p, st') => (.ok [p], st')
  | (.error e, st') => (.error e, st')

mutual

/-- `PacketBuilder::build_packets`.  The `Trade`, `TradeBatch` and
`OrderBook` arms are translated from the provided source; the
`IndexPrice`, `MarkPrice`, `FundingRate`, `Liquidation` and `Multi` arms
are modelled from the spec (§4.3: message types 2–5, one scaled value per
datagram; a `Multi` builds each record of the batch in order), since the
provided `packet_builder.rs` predates those `ParsedData` variants. -/
def buildPackets : ParsedData → Builder
  | .trade t => buildTradePackets t
  | .tradeBatch b => buildTradeBatchPackets b
  | .orderBook ob => buildOrderBookPackets ob
  | .indexPrice s ex v ts =>
    liftOne (buildSingleValuePacket s ex MESSAGE_TYPE_INDEX_PRICE ts
      (f64ToI64 (v * (PRICE_SCALE : ℚ))))
  | .markPrice s ex v ts =>
    liftOne (buildSingleValuePacket s ex MESSAGE_TYPE_MARK_PRICE ts
      (f64ToI64 (v * (PRICE_SCALE : ℚ))))
  | .fundingRate s ex v ts =>
    liftOne (buildSingleValuePacket s ex MESSAGE_TYPE_FUNDING_RATE ts
      (f64ToI64 (v * (FUNDING_RATE_SCALE : ℚ))))
  | .liquidation s ex p q isSell ts =>
    liftOne (buildLiquidationPacket s ex ts p q isSell)
  | .multi items => buildMulti items

/-- The `Multi` arm's loop: build each record in order, concatenating the
datagrams (modelled from the spec). -/
def buildMulti : List ParsedData → Builder
  | [] => bnil
  | d :: rest => bappend (buildPackets d) (buildMulti rest)

end

/-- `ConnectionManager::process_message` for a Binance-family session:
parse, then build the UDP packets (the multicast send is outside the
embedded scope). -/
def processMessage (exchange : List Char) (input : Option Json) : Builder := fun st =>
  match parseMessage exchange input with
  | .error e => (.error e, st)
  | .ok d => buildPackets d st

/-! ### Connection manager (`connection_manager.rs`) -/

/-- Rust `str::contains`: substring containment. -/
def containsSeq (pattern l : List Char) : Bool :=
  decide (pattern <:+: l)

/-- `infer_exchange_id_from_display`: substring match on the lowercased
display name. -/
def inferExchangeIdFromDisplay (displayName : List Char) : Nat :=
  let lower := displayName.map Char.toLower
  if containsSeq ("binance".toList) lower then exchangeNameToId ("binance".toList)
  else if containsSeq ("okx".toList) lower then exchangeNameToId ("okx".toList)
  else if containsSeq ("bybit".toList) lower then exchangeNameToId ("bybit".toList)
  else if containsSeq ("upbit".toList) lower then exchangeNameToId ("upbit".toList)
  else if containsSeq ("bithumb".toList) lower then exchangeNameToId ("bithumb".toList)
  else if containsSeq ("coinbase".toList) lower then exchangeNameToId ("coinbase".toList)
  else 0

/-- `ConnectionManager::send_connection_event`: build a ConnectionStatus
event packet carrying the display name; the result of the send is
discarded (`let _ = ...`), so a build failure merely drops the packet. -/
def sendConnectionEvent (exchangeName : List Char)
    (previousStatus currentStatus retryCount errorCode : Nat) (st : BuilderState) :
    List UdpPacket × BuilderState :=
  let event := SystemEvent.connectionStatus
    { exchangeId := inferExchangeIdFromDisplay exchangeName
      previousStatus := previousStatus
      currentStatus := currentStatus
      retryCount := retryCount
      errorCode := errorCode }
  match buildEventPacketWithExchange event exchangeName st with
  | (.ok p, st') => ([p], st')
  | (.error _, st') => ([], st')

/-- The maximum retry count of `manage_symbol_session`. -/
def MAX_RETRY_COUNT : Nat := 10

/-- `ConnectionManager::manage_symbol_session`, abstracted over the
outcome of each connection attempt (`true` = the attempt returns `Ok`,
`false` = it returns `Err`); the run stops when the outcome list is
exhausted or on retry exhaustion.  Events per iteration, with
`retry_count` threaded exactly as in the source: `(DISCONNECTED,
CONNECTING)` before the attempt; on success `(CONNECTING, CONNECTED)`
and the retry count resets; on failure the retry count is incremented,
then either `(RECONNECTING, FAILED)` terminates the session (count ≥ 10)
or `(CONNECTED, RECONNECTING)` precedes the backoff sleep. -/
def manageSymbolSession (exchangeName : List Char) :
    Nat → List Bool → BuilderState → List UdpPacket × BuilderState
  | _, [], st => ([], st)
  | retryCount, outcome :: rest, st =>
    let (ps1, st1) := sendConnectionEvent exchangeName CONNECTION_STATUS_DISCONNECTED
      CONNECTION_STATUS_CONNECTING retryCount 0 st
    if outcome then
      let (ps2, st2) := sendConnectionEvent exchangeName CONNECTION_STATUS_CONNECTING
        CONNECTION_STATUS_CONNECTED retryCount 0 st1
      let (ps3, st3) := manageSymbolSession exchangeName 0 rest st2
      (ps1 ++ ps2 ++ ps3, st3)
    else if MAX_RETRY_COUNT ≤ retryCount + 1 then
      let (ps2, st2) := sendConnectionEvent exchangeName CONNECTION_STATUS_RECONNECTING
        CONNECTION_STATUS_FAILED (retryCount + 1) 0 st1
      (ps1 ++ ps2, st2)
    else
      let (ps2, st2) := sendConnectionEvent exchangeName CONNECTION_STATUS_CONNECTED
        CONNECTION_STATUS_RECONNECTING (retryCount + 1) 0 st1
      let (ps3, st3) := manageSymbolSession exchangeName (retryCount + 1) rest st2
      (ps1 ++ ps2 ++ ps3, st3)

/-- The `(previous_status, current_status)` pairs carried by the
ConnectionStatus datagrams of a packet list, in emission order. -/
def connStatusPairs (ps : List UdpPacket) : List (Nat × Nat) :=
  ps.filterMap (fun p =>
    match p.items with
    | [.event (.connectionStatus cs)] => some (cs.previousStatus, cs.currentStatus)
    | _ => none)

/-! ### Emission traces -/

/-- One build operation of an emission trace: a canonical record through
`build_packets`, or a system-event packet. -/
inductive BuildOp where
  | parsed (d : ParsedData)
  | event (e : SystemEvent) (exchangeDisplay : List Char)

/-- Run one build operation. -/
def runOp : BuildOp → Builder
  | .parsed d => buildPackets d
  | .event e ex => liftOne (buildEventPacketWithExchange e ex)

/-- Run a trace of build operations, returning each operation's result in
order. -/
def runTrace (st : BuilderState) :
    List BuildOp → List (Except CryptoFeederError (List UdpPacket))
  | [] => []
  | op :: rest => (runOp op st).1 :: runTrace (runOp op st).2 rest

/-- The datagrams actually emitted by a trace: packets of the successful
operations, in order (a failed operation emits nothing — its datagram
vector is discarded). -/
def emittedPackets (rs : List (Except CryptoFeederError (List UdpPacket))) :
    List UdpPacket :=
  rs.foldr (fun r acc =>
    (match r with
     | .ok ps => ps
     | .error _ => []) ++ acc) []

/-- The sequence numbers of a packet list, in emission order. -/
def seqNumbers (ps : List UdpPacket) : List Nat :=
  ps.map (fun p => p.header.sequenceNumber)

/-- The concatenated item sequence of a list of datagrams, in emission
order. -/
def joinItems (ps : List UdpPacket) : List PItem :=
  (ps.map (fun p => p.items)).flatten

/-- Whether every operation of a trace result succeeded. -/
def allOk (rs : List (Except CryptoFeederError (List UdpPacket))) : Prop :=
  ∀ r ∈ rs, ∃ ps, r = .ok ps

/-- The header produced for one chunk: the common header fill of
`setup_header` followed by `set_flags_and_count` (specification-side
description of what the emission loop stamps on each datagram). -/
def chunkHeader (seq now : Nat) (symbol exchange : List Char)
    (messageType exchangeTimestamp : Nat) (isLast : Bool) (count : Nat) :
    PacketHeader :=
  (({ PacketHeader.new with
      protocolVersion := 1
      sequenceNumber := seq
      exchangeTimestamp := exchangeTimestamp
      localTimestamp := now
      messageType := messageType }).setSymbol symbol |>.setExchange
    exchange).setFlagsAndCount isLast count

/-- The pairwise ordering contract of a sorted trade emission (spec §4.3
/ P6): taker-buy items in non-decreasing price order, taker-sell items in
non-increasing price order, and no taker-sell item before a taker-buy
item. -/
def tradePairOrd (a b : StandardizedTrade) : Prop :=
  (a.isBuyerTaker = true → b.isBuyerTaker = true → a.price ≤ b.price) ∧
    (a.isBuyerTaker = false → b.isBuyerTaker = false → b.price ≤ a.price) ∧
    (a.isBuyerTaker = false → b.isBuyerTaker = false)

/-- The membership test for one stability class: same side and same
price. -/
def sameSidePrice (side : Bool) (price : ℚ) (t : StandardizedTrade) : Bool :=
  t.isBuyerTaker = side ∧ t.price = price

/-- The concrete forceOrder frame of the C8 counterexample: the nested
order object carries the required symbol but an unparseable quantity
string `"abc"`, a missing side and missing prices. -/
def forceOrderDefaultFrame : Json :=
  .obj [("e".toList, .str ("forceOrder".toList)),
        ("o".toList, .obj [("s".toList, .str ("BTCUSDT".toList)),
                           ("q".toList, .str ("abc".toList))])]

/-- The Binance futures mark-price frame of spec scenario 2. -/
def scenario2Frame : Json :=
  .obj [("stream".toList, .str ("btcusdt@markPrice@1s".toList)),
        ("data".toList, .obj
          [("e".toList, .str ("markPriceUpdate".toList)),
           ("E".toList, .num 1700000000000),
           ("s".toList, .str ("BTCUSDT".toList)),
           ("p".toList, .str ("50000.0".toList)),
           ("i".toList, .str ("50001.0".toList)),
           ("r".toList, .str ("0.0001".toList))])]

/-- The packet the chunk-emission loop builds for one chunk
(specification-side description used by the characterization lemmas). -/
def chunkPacket (seq now : Nat) (symbol exchange : List Char)
    (messageType exchangeTimestamp : Nat) (isLast : Bool) (c : List PItem) :
    UdpPacket :=
  { header := chunkHeader seq now symbol exchange messageType exchangeTimestamp
      isLast c.length
    items := c
    size := headerByteSize + itemByteSize * c.length }

/-- The sequence-number contract of a builder computation: the counter
never decreases, and on success the emitted packets carry exactly the
consecutive sequence numbers drawn from the counter. -/
def SeqSpec (f : Builder) : Prop :=
  ∀ st : BuilderState,
    st.seq ≤ ((f st).2).seq ∧
      ∀ ps, (f st).1 = .ok ps →
        seqNumbers ps = List.range' st.seq ps.length ∧
          ((f st).2).seq = st.seq + ps.length

/-- The size-and-count contract of a builder computation: every packet of
a successful result fits in 1472 bytes and reports at most 80 items. -/
def GoodBuilder (f : Builder) : Prop :=
  ∀ (st : BuilderState) ps, (f st).1 = .ok ps →
    ∀ p ∈ ps, p.size ≤ 1472 ∧ p.header.itemCount ≤ 80

/-- The scaled price carried by a payload item (the first 8 bytes of the
16-byte item). -/
def pitemPrice : PItem → Int
  | .tick w => w.price
  | .liq w => w.price
  | .single v => v
  | .event _ => 0

/-- The bit-63 flag carried by a payload item (is_ask / is_buyer_taker /
is_sell); `false` for items without one. -/
def pitemFlag : PItem → Bool
  | .tick w => w.flag
  | .liq w => w.flag
  | .single _ => false
  | .event _ => false

/-- The masked wire quantity carried by a payload item (bits 0–62 of
`quantity_with_flags`); `0` for items without one. -/
def pitemQuantity : PItem → Nat
  | .tick w => w.quantity
  | .liq w => w.quantity
  | .single _ => 0
  | .event _ => 0

/-- An order-book update whose only level passes the positive-quantity
filter but whose quantity lies below the fixed-point resolution
`10^-8`, so its wire quantity scales and truncates to `0`. -/
def lowQtyBook : StandardizedOrderBookUpdate :=
  { symbol := "B".toList, exchange := "X".toList
    bids := [{ price := 5, quantity := 1 / 1000000000 }]
    asks := [], timestamp := 1 }

/-- A small three-trade batch (two taker-buy trades out of price order
plus one taker-sell trade, all sharing one timestamp, symbol and
exchange) exercising the sorting and chunking paths. -/
def demoBatch : StandardizedTradeBatch :=
  { symbol := "B".toList, exchange := "X".toList, exchangeTimestamp := 7
    trades :=
      [{ symbol := "B".toList, exchange := "X".toList, price := 5, quantity := 1
         isBuyerTaker := false, timestamp := 7 },
       { symbol := "B".toList, exchange := "X".toList, price := 3, quantity := 2
         isBuyerTaker := true, timestamp := 7 },
       { symbol := "B".toList, exchange := "X".toList, price := 4, quantity := 3
         isBuyerTaker := true, timestamp := 7 }] }

/-- A small order-book update with unsorted bids, one zero-quantity bid
level and one ask level. -/
def demoBook : StandardizedOrderBookUpdate :=
  { symbol := "B".toList, exchange := "X".toList
    bids := [{ price := 4, quantity := 1 }, { price := 6, quantity := 2 },
             { price := 5, quantity := 0 }]
    asks := [{ price := 7, quantity := 3 }], timestamp := 1 }

/-- The parse result of the scenario-2 mark-price frame: one `Multi`
batch of the three single-value records sharing the event timestamp in
nanoseconds. -/
def scenario2Parsed : ParsedData :=
  .multi
    [.indexPrice ("BTC^USDT".toList) ("BinanceFutures".toList) 50001 1700000000000000000,
     .markPrice ("BTC^USDT".toList) ("BinanceFutures".toList) 50000 1700000000000000000,
     .fundingRate ("BTC^USDT".toList) ("BinanceFutures".toList) (1 / 10000)
       1700000000000000000]

/-! ### Lemmas: flags-and-count byte -/

set_option maxRecDepth 4096 in
theorem land_lor_small : ∀ x : Fin 128,
    Nat.land x.val 127 = x.val ∧ Nat.land (Nat.lor x.val 128) 127 = x.val ∧
      Nat.land x.val 128 = 0 ∧ Nat.land (Nat.lor x.val 128) 128 ≠ 0 := by
  decide

theorem min80_lt_128 (c : Nat) : min c 80 < 128 := by
  have := min_le_right c 80
  omega

theorem encodeFlagsAndCount_eq (b : Bool) (c : Nat) :
    encodeFlagsAndCount b c =
      if b then Nat.lor (min c 80) 128 else min c 80 := by
  have h := (land_lor_small ⟨min c 80, min80_lt_128 c⟩).1
  simp only [encodeFlagsAndCount] at *
  cases b <;> simp [h]

theorem setFlagsAndCount_itemCount (h : PacketHeader) (b : Bool) (c : Nat) :
    (h.setFlagsAndCount b c).itemCount = min c 80 := by
  have h1 := (land_lor_small ⟨min c 80, min80_lt_128 c⟩).1
  have h2 := (land_lor_small ⟨min c 80, min80_lt_128 c⟩).2.1
  simp only [PacketHeader.setFlagsAndCount, PacketHeader.itemCount,
    encodeFlagsAndCount_eq]
  cases b <;> simp [h1, h2]

theorem setFlagsAndCount_isLastFlag (h : PacketHeader) (b : Bool) (c : Nat) :
    (h.setFlagsAndCount b c).isLastFlag = b := by
  have h3 := (land_lor_small ⟨min c 80, min80_lt_128 c⟩).2.2.1
  have h4 := (land_lor_small ⟨min c 80, min80_lt_128 c⟩).2.2.2
  simp only [PacketHeader.setFlagsAndCount, PacketHeader.isLastFlag,
    encodeFlagsAndCount_eq]
  cases b <;> simp [h3, h4]

theorem setFlagsAndCount_itemCount_le (h : PacketHeader) (b : Bool) (c : Nat) :
    (h.setFlagsAndCount b c).itemCount ≤ 80 := by
  rw [setFlagsAndCount_itemCount]
  exact min_le_right c 80

/-- C10: `set_flags_and_count(b, c)` stores `min(c, 80)` in bits 0–6 and
`b` in bit 7 without any error path: for every `u8` count the readback
`item_count()` equals `min(c, 80)` (hence is at most 80) and `is_last()`
equals `b`, independent of the count. -/
theorem claim_C10_set_flags_and_count (h : PacketHeader) (b : Bool) (count : Nat)
    (hcount : count < 256) :
    (h.setFlagsAndCount b count).itemCount = min count 80 ∧
      (h.setFlagsAndCount b count).isLastFlag = b ∧
      (h.setFlagsAndCount b count).itemCount ≤ 80 := by
  exact ⟨setFlagsAndCount_itemCount h b count, setFlagsAndCount_isLastFlag h b count,
    setFlagsAndCount_itemCount_le h b count⟩

/-- Witness for C10 at the out-of-range count 90: the header saturates to
item_count 80 with the is_last bit set. -/
theorem claim_C10_witness :
    (90 : Nat) < 256 ∧
      ((PacketHeader.new.setFlagsAndCount true 90).itemCount = min 90 80 ∧
        (PacketHeader.new.setFlagsAndCount true 90).isLastFlag = true ∧
        (PacketHeader.new.setFlagsAndCount true 90).itemCount ≤ 80) :=
  ⟨by norm_num, claim_C10_set_flags_and_count PacketHeader.new true 90 (by norm_num)⟩

/-! ### Lemmas: symbol normalization (C7) -/

theorem endsWithQuote_iff {u q : List Char} : endsWithQuote u q = true ↔ q <:+ u := by
  simp [endsWithQuote, List.isSuffixOf_iff_suffix]

theorem endsWithQuote_length_le {u q : List Char} (h : endsWithQuote u q = true) :
    q.length ≤ u.length :=
  (endsWithQuote_iff.mp h).length_le

theorem endsWithQuote_append_pattern (x q : List Char) :
    endsWithQuote (x ++ ('^' :: q)) q = true :=
  endsWithQuote_iff.mpr ⟨x ++ ['^'], by simp⟩

theorem map_toUpper_append_pattern (x q : List Char)
    (hq : q.map Char.toUpper = q) :
    (x ++ ('^' :: q)).map Char.toUpper = x.map Char.toUpper ++ ('^' :: q) := by
  have hcaret : Char.toUpper '^' = '^' := by decide
  simp [hcaret, hq]

theorem hasQuoteSuffix_false_iff {u : List Char} :
    hasQuoteSuffix u = false ↔
      endsWithQuote u quoteUSDT = false ∧ endsWithQuote u quoteUSDC = false ∧
        endsWithQuote u quoteBUSD = false ∧ endsWithQuote u quoteBTC = false ∧
        endsWithQuote u quoteETH = false ∧ endsWithQuote u quoteBNB = false := by
  simp only [hasQuoteSuffix, Bool.or_eq_false_iff]
  tauto

theorem normalize_eq_self_of_no_suffix {s : List Char}
    (h : hasQuoteSuffix (s.map Char.toUpper) = false) :
    normalizeBinanceSymbol s = s := by
  obtain ⟨h1, h2, h3, h4, h5, h6⟩ := hasQuoteSuffix_false_iff.mp h
  simp [normalizeBinanceSymbol, h1, h2, h3, h4, h5, h6]

theorem normalize_length_of_suffix {s : List Char}
    (h : hasQuoteSuffix (s.map Char.toUpper) = true) :
    (normalizeBinanceSymbol s).length = s.length + 1 := by
  simp only [normalizeBinanceSymbol]
  by_cases h1 : endsWithQuote (s.map Char.toUpper) quoteUSDT = true
  · have hl := endsWithQuote_length_le h1
    simp only [List.length_map] at hl
    have hq : quoteUSDT.length = 4 := rfl
    simp [h1]
    omega
  by_cases h2 : endsWithQuote (s.map Char.toUpper) quoteUSDC = true
  · have hl := endsWithQuote_length_le h2
    simp only [List.length_map] at hl
    have hq : quoteUSDC.length = 4 := rfl
    simp [h1, h2]
    omega
  by_cases h3 : endsWithQuote (s.map Char.toUpper) quoteBUSD = true
  · have hl := endsWithQuote_length_le h3
    simp only [List.length_map] at hl
    have hq : quoteBUSD.length = 4 := rfl
    simp [h1, h2, h3]
    omega
  by_cases h4 : endsWithQuote (s.map Char.toUpper) quoteBTC = true
  · have hl := endsWithQuote_length_le h4
    simp only [List.length_map] at hl
    have hq : quoteBTC.length = 3 := rfl
    simp [h1, h2, h3, h4]
    omega
  by_cases h5 : endsWithQuote (s.map Char.toUpper) quoteETH = true
  · have hl := endsWithQuote_length_le h5
    simp only [List.length_map] at hl
    have hq : quoteETH.length = 3 := rfl
    simp [h1, h2, h3, h4, h5]
    omega
  by_cases h6 : endsWithQuote (s.map Char.toUpper) quoteBNB = true
  · have hl := endsWithQuote_length_le h6
    simp only [List.length_map] at hl
    have hq : quoteBNB.length = 3 := rfl
    simp [h1, h2, h3, h4, h5, h6]
    omega
  exfalso
  rw [hasQuoteSuffix] at h
  simp_all

theorem normalize_suffix_preserved {s : List Char}
    (h : hasQuoteSuffix (s.map Char.toUpper) = true) :
    hasQuoteSuffix ((normalizeBinanceSymbol s).map Char.toUpper) = true := by
  simp only [normalizeBinanceSymbol]
  by_cases h1 : endsWithQuote (s.map Char.toUpper) quoteUSDT = true
  · rw [if_pos h1, map_toUpper_append_pattern _ quoteUSDT (by decide)]
    simp [hasQuoteSuffix, endsWithQuote_append_pattern]
  by_cases h2 : endsWithQuote (s.map Char.toUpper) quoteUSDC = true
  · rw [if_neg h1, if_pos h2, map_toUpper_append_pattern _ quoteUSDC (by decide)]
    simp [hasQuoteSuffix, endsWithQuote_append_pattern]
  by_cases h3 : endsWithQuote (s.map Char.toUpper) quoteBUSD = true
  · rw [if_neg h1, if_neg h2, if_pos h3, map_toUpper_append_pattern _ quoteBUSD (by decide)]
    simp [hasQuoteSuffix, endsWithQuote_append_pattern]
  by_cases h4 : endsWithQuote (s.map Char.toUpper) quoteBTC = true
  · rw [if_neg h1, if_neg h2, if_neg h3, if_pos h4,
      map_toUpper_append_pattern _ quoteBTC (by decide)]
    simp [hasQuoteSuffix, endsWithQuote_append_pattern]
  by_cases h5 : endsWithQuote (s.map Char.toUpper) quoteETH = true
  · rw [if_neg h1, if_neg h2, if_neg h3, if_neg h4, if_pos h5,
      map_toUpper_append_pattern _ quoteETH (by decide)]
    simp [hasQuoteSuffix, endsWithQuote_append_pattern]
  by_cases h6 : endsWithQuote (s.map Char.toUpper) quoteBNB = true
  · rw [if_neg h1, if_neg h2, if_neg h3, if_neg h4, if_neg h5, if_pos h6,
      map_toUpper_append_pattern _ quoteBNB (by decide)]
    simp [hasQuoteSuffix, endsWithQuote_append_pattern]
  exfalso
  rw [hasQuoteSuffix] at h
  simp_all

/-- C7 counterexample: symbol normalization is *not* idempotent.  On
`"BTCUSDT"` one application yields `"BTC^USDT"`, but a second application
re-splits the `USDT` suffix and yields `"BTC^^USDT"`. -/
theorem claim_C7_counterexample :
    normalizeBinanceSymbol ("BTCUSDT".toList) = "BTC^USDT".toList ∧
      normalizeBinanceSymbol (normalizeBinanceSymbol ("BTCUSDT".toList)) =
        "BTC^^USDT".toList ∧
      normalizeBinanceSymbol (normalizeBinanceSymbol ("BTCUSDT".toList)) ≠
        normalizeBinanceSymbol ("BTCUSDT".toList) := by
  refine ⟨by decide, by decide, by decide⟩

/-- C7 amended: `normalize_binance_symbol` is idempotent on an input
exactly when its uppercase form carries none of the six recognized quote
suffixes — i.e. exactly when normalization leaves the input unchanged.
Whenever a quote suffix is matched, the output itself ends in that quote
and a second application grows it again, so idempotence fails on every
symbol that is actually rewritten. -/
theorem claim_C7_normalize_idempotent_iff (s : List Char) :
    normalizeBinanceSymbol (normalizeBinanceSymbol s) = normalizeBinanceSymbol s ↔
      hasQuoteSuffix (s.map Char.toUpper) = false := by
  constructor
  · intro heq
    by_contra hne
    have hsuf : hasQuoteSuffix (s.map Char.toUpper) = true := by
      cases hq : hasQuoteSuffix (s.map Char.toUpper) with
      | false => exact absurd hq hne
      | true => rfl
    have l1 := normalize_length_of_suffix hsuf
    have l2 := normalize_length_of_suffix (normalize_suffix_preserved hsuf)
    rw [heq, l1] at l2
    omega
  · intro hno
    rw [normalize_eq_self_of_no_suffix hno, normalize_eq_self_of_no_suffix hno]

/-- Witness for the amended C7 at concrete inputs: idempotence holds on
`"SOMETHING"` (no recognized quote suffix) and fails on `"BTCUSDT"`. -/
theorem claim_C7_witness :
    normalizeBinanceSymbol (normalizeBinanceSymbol ("SOMETHING".toList)) =
      normalizeBinanceSymbol ("SOMETHING".toList) ∧
      ¬ (normalizeBinanceSymbol (normalizeBinanceSymbol ("BTCUSDT".toList)) =
        normalizeBinanceSymbol ("BTCUSDT".toList)) :=
  ⟨(claim_C7_normalize_idempotent_iff ("SOMETHING".toList)).mpr (by decide),
    fun h => by
      have := (claim_C7_normalize_idempotent_iff ("BTCUSDT".toList)).mp h
      exact absurd this (by decide)⟩

/-! ### Lemmas: connection-status event trace (C9) -/

theorem sendConnectionEvent_pairs (exchangeName : List Char)
    (prev cur retry err : Nat) (st : BuilderState) :
    sendConnectionEvent exchangeName prev cur retry err st =
      ([{ header := (({ PacketHeader.new with
            protocolVersion := 1
            sequenceNumber := st.seq
            exchangeTimestamp := st.now
            localTimestamp := st.now
            messageType := MESSAGE_TYPE_CONNECTION_STATUS }).setFlagsAndCount true
              1 |>.setSymbol ("SYSTEM".toList)).setExchange exchangeName
          items := [.event (.connectionStatus
            { exchangeId := inferExchangeIdFromDisplay exchangeName
              previousStatus := prev
              currentStatus := cur
              retryCount := retry
              errorCode := err })]
          size := 83 }], { st with seq := st.seq + 1 }) := by
  simp [sendConnectionEvent, buildEventPacketWithExchange, createPacket,
    fetchAddSeq, SystemEvent.getMessageType, SystemEvent.getPayload,
    SystemEvent.getSymbol, headerByteSize, itemByteSize]

/-- C9 counterexample: with three handshake failures followed by a
success, the emitted ConnectionStatus (previous, current) pairs are *not*
the state-machine trace (0,1),(1,3),(3,1),(1,3),(3,1),(1,3),(3,1),(1,2)
asserted by the claim. -/
theorem claim_C9_counterexample :
    connStatusPairs
        (manageSymbolSession ("BinanceFutures".toList) 0 [false, false, false, true]
          (initialBuilderState 0)).1 ≠
      [(0, 1), (1, 3), (3, 1), (1, 3), (3, 1), (1, 3), (3, 1), (1, 2)] := by
  decide

/-- C9 amended: the session loop emits one ConnectionStatus event per
transition, but with call-site-constant previous/current values rather
than the machine's tracked state: (DISCONNECTED, CONNECTING) = (0,1)
before every attempt, (CONNECTED, RECONNECTING) = (2,3) after every
non-final failure (even when never connected), and (CONNECTING,
CONNECTED) = (1,2) on success; so three handshake failures followed by a
success emit (0,1),(2,3),(0,1),(2,3),(0,1),(2,3),(0,1),(1,2). -/
theorem claim_C9_connection_event_trace (exchangeName : List Char)
    (st : BuilderState) :
    connStatusPairs
        (manageSymbolSession exchangeName 0 [false, false, false, true] st).1 =
      [(0, 1), (2, 3), (0, 1), (2, 3), (0, 1), (2, 3), (0, 1), (1, 2)] := by
  simp [manageSymbolSession, sendConnectionEvent_pairs, connStatusPairs,
    MAX_RETRY_COUNT, CONNECTION_STATUS_DISCONNECTED, CONNECTION_STATUS_CONNECTING,
    CONNECTION_STATUS_CONNECTED, CONNECTION_STATUS_RECONNECTING]

/-! ### Lemmas: parser error policy (C8) -/

/-- C8 counterexample: a forceOrder frame whose quantity string fails to
parse as a number is *not* rejected — the parser substitutes the default
values (price 0, quantity 0, is_sell false, timestamp 0) and succeeds. -/
theorem claim_C8_counterexample :
    parseF64 ("abc".toList) = none ∧
      parseBinanceMessage (some forceOrderDefaultFrame) =
        .ok (.liquidation ("BTC^USDT".toList) ("BinanceFutures".toList) 0 0 false 0) := by
  constructor
  · decide
  · rfl

/-- One unparseable price or quantity string anywhere in a depth-update
side fails the whole side's conversion, exactly as the source's `?` in
the level loop. -/
theorem convertLevels_error :
    ∀ ls : List (List Char × List Char),
      (∃ pq ∈ ls, parseF64 pq.1 = none ∨ parseF64 pq.2 = none) →
      convertLevels ls = .error .jsonParseError := by
  intro ls
  induction ls with
  | nil =>
    rintro ⟨pq, hmem, -⟩
    cases hmem
  | cons a rest ih =>
    obtain ⟨p, q⟩ := a
    rintro ⟨pq, hmem, hbad⟩
    show (match parseF64 p, parseF64 q with
      | some pf, some qf => (convertLevels rest).map
          (fun ls => ({ price := pf, quantity := qf } : OrderBookLevel) :: ls)
      | _, _ => Except.error CryptoFeederError.jsonParseError) =
      Except.error CryptoFeederError.jsonParseError
    rcases List.mem_cons.mp hmem with heq | hmem2
    · subst heq
      dsimp only at hbad
      rcases hp : parseF64 p with _ | pf <;> rcases hq : parseF64 q with _ | qf
      · rfl
      · rfl
      · rfl
      · rw [hp, hq] at hbad
        rcases hbad with h | h <;> simp at h
    · have hrest : convertLevels rest = .error .jsonParseError := ih ⟨pq, hmem2, hbad⟩
      rcases hp : parseF64 p with _ | pf <;> rcases hq : parseF64 q with _ | qf
      · rfl
      · rfl
      · rfl
      · rw [hrest]
        rfl

/-- C8 amended: parse failures fail the message in the trade, aggTrade,
depthUpdate and markPriceUpdate arms (malformed JSON, missing event
type, missing required fields, unparseable numbers), but *not* in the
forceOrder arm: there only the nested `o` object and its symbol are
required, and missing or unparseable side/price/quantity/timestamp data
is silently replaced by defaults, the message succeeding.  Conjuncts:
(1) malformed JSON errors; (2) a missing/non-string event type errors;
(3) markPriceUpdate with a missing `r` field errors; (4) markPriceUpdate
with an unparseable `r` errors; (5) trade with an unparseable price
errors; (6) aggTrade with a missing `m` field errors; (7) aggTrade with
an unparseable price errors; (8) depthUpdate with a missing/malformed
`b` side errors; (9) depthUpdate with an unparseable level number
errors; (10) forceOrder with `o` and `o.s` present always succeeds. -/
theorem claim_C8_error_policy :
    (parseBinanceMessage none = .error .jsonParseError) ∧
      (∀ root : Json, binanceEventType root = none →
        parseBinanceMessage (some root) = .error .jsonParseError) ∧
      (∀ root : Json, binanceEventType root = some ("markPriceUpdate".toList) →
        (∀ sym mark index,
          ((eventObjOf root).get ("s".toList)).bind Json.asStr = some sym →
          ((eventObjOf root).get ("p".toList)).bind Json.asStr = some mark →
          ((eventObjOf root).get ("i".toList)).bind Json.asStr = some index →
          ((eventObjOf root).get ("r".toList)).bind Json.asStr = none →
          parseBinanceMessage (some root) = .error .jsonParseError)) ∧
      (∀ root : Json, binanceEventType root = some ("markPriceUpdate".toList) →
        (∀ sym mark index funding,
          ((eventObjOf root).get ("s".toList)).bind Json.asStr = some sym →
          ((eventObjOf root).get ("p".toList)).bind Json.asStr = some mark →
          ((eventObjOf root).get ("i".toList)).bind Json.asStr = some index →
          ((eventObjOf root).get ("r".toList)).bind Json.asStr = some funding →
          parseF64 funding = none →
          parseBinanceMessage (some root) = .error .jsonParseError)) ∧
      (∀ root : Json, binanceEventType root = some ("trade".toList) →
        (∀ ev sym tid p q tt m,
          ((eventObjOf root).get ("E".toList)).bind Json.asU64 = some ev →
          ((eventObjOf root).get ("s".toList)).bind Json.asStr = some sym →
          ((eventObjOf root).get ("t".toList)).bind Json.asU64 = some tid →
          ((eventObjOf root).get ("p".toList)).bind Json.asStr = some p →
          ((eventObjOf root).get ("q".toList)).bind Json.asStr = some q →
          ((eventObjOf root).get ("T".toList)).bind Json.asU64 = some tt →
          ((eventObjOf root).get ("m".toList)).bind Json.asBool = some m →
          parseF64 p = none →
          parseBinanceMessage (some root) = .error .jsonParseError)) ∧
      (∀ root : Json, binanceEventType root = some ("aggTrade".toList) →
        ((eventObjOf root).get ("m".toList)).bind Json.asBool = none →
        parseBinanceMessage (some root) = .error .jsonParseError) ∧
      (∀ root : Json, binanceEventType root = some ("aggTrade".toList) →
        (∀ ev sym p q tt m,
          ((eventObjOf root).get ("E".toList)).bind Json.asU64 = some ev →
          ((eventObjOf root).get ("s".toList)).bind Json.asStr = some sym →
          ((eventObjOf root).get ("p".toList)).bind Json.asStr = some p →
          ((eventObjOf root).get ("q".toList)).bind Json.asStr = some q →
          ((eventObjOf root).get ("T".toList)).bind Json.asU64 = some tt →
          ((eventObjOf root).get ("m".toList)).bind Json.asBool = some m →
          parseF64 p = none →
          parseBinanceMessage (some root) = .error .jsonParseError)) ∧
      (∀ root : Json, binanceEventType root = some ("depthUpdate".toList) →
        ((eventObjOf root).get ("b".toList)).bind Json.asLevelStrs = none →
        parseBinanceMessage (some root) = .error .jsonParseError) ∧
      (∀ root : Json, binanceEventType root = some ("depthUpdate".toList) →
        (∀ ev sym fu lu bidStrs askStrs,
          ((eventObjOf root).get ("E".toList)).bind Json.asU64 = some ev →
          ((eventObjOf root).get ("s".toList)).bind Json.asStr = some sym →
          ((eventObjOf root).get ("U".toList)).bind Json.asU64 = some fu →
          ((eventObjOf root).get ("u".toList)).bind Json.asU64 = some lu →
          ((eventObjOf root).get ("b".toList)).bind Json.asLevelStrs = some bidStrs →
          ((eventObjOf root).get ("a".toList)).bind Json.asLevelStrs = some askStrs →
          (∃ pq ∈ bidStrs, parseF64 pq.1 = none ∨ parseF64 pq.2 = none) →
          parseBinanceMessage (some root) = .error .jsonParseError)) ∧
      (∀ root o sym, binanceEventType root = some ("forceOrder".toList) →
        (eventObjOf root).get ("o".toList) = some o →
        (o.get ("s".toList)).bind Json.asStr = some sym →
        ∃ d, parseBinanceMessage (some root) = .ok d) := by
  refine ⟨rfl, ?_, ?_, ?_, ?_, ?_, ?_, ?_, ?_, ?_⟩
  · intro root h
    simp [parseBinanceMessage, h]
  · intro root h sym mark index hs hp hi hr
    simp only [parseBinanceMessage, h]
    rw [if_pos trivial]
    simp only [parseMarkPriceArm, hs, hp, hi, hr]
    rfl
  · intro root h sym mark index funding hs hp hi hr hparse
    simp only [parseBinanceMessage, h]
    rw [if_pos trivial]
    simp only [parseMarkPriceArm, hs, hp, hi, hr, hparse]
    rcases parseF64 mark with _ | mf <;> rcases parseF64 index with _ | idf <;> rfl
  · intro root h ev sym tid p q tt m hE hs ht hp hq hT hm hparse
    simp only [parseBinanceMessage, h]
    rw [if_pos trivial]
    simp only [parseTradeArm, hE, hs, ht, hp, hq, hT, hm, hparse]
    rcases parseF64 q with _ | qf <;> rfl
  · intro root h hm
    simp only [parseBinanceMessage, h]
    rw [if_pos trivial]
    simp only [parseAggTradeArm, hm]
    rcases ((eventObjOf root).get ("E".toList)).bind Json.asU64 with _ | ev <;>
      rcases ((eventObjOf root).get ("s".toList)).bind Json.asStr with _ | sym <;>
      rcases ((eventObjOf root).get ("p".toList)).bind Json.asStr with _ | p <;>
      rcases ((eventObjOf root).get ("q".toList)).bind Json.asStr with _ | q <;>
      rcases ((eventObjOf root).get ("T".toList)).bind Json.asU64 with _ | tt <;>
      rfl
  · intro root h ev sym p q tt m hE hs hp hq hT hm hparse
    simp only [parseBinanceMessage, h]
    rw [if_pos trivial]
    simp only [parseAggTradeArm, hE, hs, hp, hq, hT, hm, hparse]
    rcases parseF64 q with _ | qf <;> rfl
  · intro root h hb
    simp only [parseBinanceMessage, h]
    rw [if_pos trivial]
    simp only [parseDepthUpdateArm, hb]
    rcases ((eventObjOf root).get ("E".toList)).bind Json.asU64 with _ | ev <;>
      rcases ((eventObjOf root).get ("s".toList)).bind Json.asStr with _ | sym <;>
      rcases ((eventObjOf root).get ("U".toList)).bind Json.asU64 with _ | fu <;>
      rcases ((eventObjOf root).get ("u".toList)).bind Json.asU64 with _ | lu <;>
      rcases ((eventObjOf root).get ("a".toList)).bind Json.asLevelStrs with _ | a <;>
      rfl
  · intro root h ev sym fu lu bidStrs askStrs hE hs hU hu hb ha hbad
    simp only [parseBinanceMessage, h]
    rw [if_pos trivial]
    simp only [parseDepthUpdateArm, hE, hs, hU, hu, hb, ha]
    rw [convertLevels_error bidStrs hbad]
  · intro root o sym h ho hs
    simp only [parseBinanceMessage, h]
    rw [if_pos trivial]
    simp only [parseForceOrderArm, ho, hs]
    exact ⟨_, rfl⟩

/-- Witness for the amended C8: error conjuncts applied at concrete
markPriceUpdate, aggTrade and depthUpdate frames, and the forceOrder
conjunct at the counterexample frame. -/
theorem claim_C8_witness :
    parseBinanceMessage
        (some (.obj [("e".toList, .str ("markPriceUpdate".toList)),
                     ("s".toList, .str ("BTCUSDT".toList)),
                     ("p".toList, .str ("1.0".toList)),
                     ("i".toList, .str ("1.0".toList))])) =
      .error .jsonParseError ∧
    parseBinanceMessage
        (some (.obj [("e".toList, .str ("aggTrade".toList)),
                     ("E".toList, .num 1),
                     ("s".toList, .str ("BTCUSDT".toList)),
                     ("p".toList, .str ("abc".toList)),
                     ("q".toList, .str ("1".toList)),
                     ("T".toList, .num 2),
                     ("m".toList, .bool true)])) =
      .error .jsonParseError ∧
    parseBinanceMessage
        (some (.obj [("e".toList, .str ("depthUpdate".toList)),
                     ("E".toList, .num 1),
                     ("s".toList, .str ("BTCUSDT".toList)),
                     ("U".toList, .num 1),
                     ("u".toList, .num 2),
                     ("b".toList, .arr [.arr [.str ("x".toList), .str ("1".toList)]]),
                     ("a".toList, .arr [])])) =
      .error .jsonParseError ∧
      ∃ d, parseBinanceMessage (some forceOrderDefaultFrame) = .ok d := by
  refine ⟨?_, ?_, ?_, ?_⟩
  · exact (claim_C8_error_policy.2.2.1 _ rfl ("BTCUSDT".toList)
      ("1.0".toList) ("1.0".toList) rfl rfl rfl rfl)
  · exact (claim_C8_error_policy.2.2.2.2.2.2.1 _ rfl 1 ("BTCUSDT".toList)
      ("abc".toList) ("1".toList) 2 true rfl rfl rfl rfl rfl rfl rfl)
  · exact (claim_C8_error_policy.2.2.2.2.2.2.2.2.1 _ rfl 1 ("BTCUSDT".toList) 1 2
      [("x".toList, "1".toList)] [] rfl rfl rfl rfl rfl rfl
      ⟨("x".toList, "1".toList), List.mem_singleton.mpr rfl, Or.inl rfl⟩)
  · exact claim_C8_error_policy.2.2.2.2.2.2.2.2.2 forceOrderDefaultFrame
      (.obj [("s".toList, .str ("BTCUSDT".toList)),
             ("q".toList, .str ("abc".toList))])
      ("BTCUSDT".toList) rfl rfl rfl

/-! ### Lemmas: chunking -/

theorem chunksAux_nil (n fuel : Nat) : chunksAux n fuel ([] : List α) = [] := by
  cases fuel <;> rfl

theorem chunksAux_cons (n fuel : Nat) (a : α) (l : List α) :
    chunksAux n (fuel + 1) (a :: l) =
      (a :: l).take n :: chunksAux n fuel ((a :: l).drop n) := rfl

theorem chunksAux_spec {α : Type _} (n : Nat) (hn : 0 < n) :
    ∀ (fuel : Nat) (l : List α), l.length ≤ fuel →
      (chunksAux n fuel l).flatten = l ∧
        ∀ c ∈ chunksAux n fuel l, c.length ≤ n ∧ c ≠ [] := by
  intro fuel
  induction fuel with
  | zero =>
    intro l hl
    have hnil : l = [] := List.length_eq_zero.mp (Nat.le_zero.mp hl)
    subst hnil
    simp [chunksAux_nil]
  | succ fuel ih =>
    intro l hl
    cases l with
    | nil => simp [chunksAux_nil]
    | cons a t =>
      rw [chunksAux_cons]
      have hdrop : ((a :: t).drop n).length ≤ fuel := by
        simp only [List.length_drop, List.length_cons]
        simp only [List.length_cons] at hl
        omega
      obtain ⟨hflat, hmem⟩ := ih _ hdrop
      refine ⟨?_, ?_⟩
      · simp [hflat]
      · intro c hc
        rcases List.mem_cons.mp hc with hc | hc
        · subst hc
          refine ⟨by simpa using Nat.min_le_left n _, ?_⟩
          cases n with
          | zero => omega
          | succ m => simp [List.take_cons]
        · exact hmem c hc

theorem chunksOf_flatten {α : Type _} (n : Nat) (hn : 0 < n) (l : List α) :
    (chunksOf n l).flatten = l :=
  (chunksAux_spec n hn l.length l le_rfl).1

theorem chunksOf_mem {α : Type _} (n : Nat) (hn : 0 < n) (l : List α) :
    ∀ c ∈ chunksOf n l, c.length ≤ n ∧ c ≠ [] :=
  (chunksAux_spec n hn l.length l le_rfl).2

theorem chunksOf_ne_nil {α : Type _} (n : Nat) {l : List α} (hl : l ≠ []) :
    chunksOf n l ≠ [] := by
  cases l with
  | nil => exact absurd rfl hl
  | cons a t =>
    rw [chunksOf, List.length_cons, chunksAux_cons]
    exact List.cons_ne_nil _ _

/-! ### Lemmas: packet construction -/

theorem createPacket_ok {h : PacketHeader} {items : List PItem}
    (hsz : headerByteSize + itemByteSize * items.length ≤ 1472) :
    createPacket h items =
      .ok { header := h, items := items
            size := headerByteSize + itemByteSize * items.length } := by
  rw [createPacket, if_neg (by omega)]

theorem createPacket_ok_inv {h : PacketHeader} {items : List PItem} {p : UdpPacket}
    (hp : createPacket h items = .ok p) :
    p.header = h ∧ p.items = items ∧
      p.size = headerByteSize + itemByteSize * items.length ∧ p.size ≤ 1472 := by
  rw [createPacket] at hp
  by_cases hsz : 1472 < headerByteSize + itemByteSize * items.length
  · rw [if_pos hsz] at hp
    cases hp
  · rw [if_neg hsz] at hp
    cases hp
    refine ⟨rfl, rfl, rfl, ?_⟩
    show headerByteSize + itemByteSize * items.length ≤ 1472
    omega

theorem createPacket_error_iff (h : PacketHeader) (items : List PItem) :
    (∃ e, createPacket h items = .error e) ↔
      1472 < headerByteSize + itemByteSize * items.length := by
  constructor
  · rintro ⟨e, he⟩
    by_contra hsz
    rw [createPacket, if_neg hsz] at he
    cases he
  · intro hsz
    exact ⟨.serializationError, by rw [createPacket, if_pos hsz]⟩

/-! ### Lemmas: the chunk-emission loop -/

theorem range1_append (s m n : Nat) :
    List.range' s m ++ List.range' (s + m) n = List.range' s (m + n) := by
  have h := List.range'_append s m n 1
  rw [Nat.one_mul] at h
  rw [Nat.add_comm m n]
  exact h

theorem emitChunksAux_ok (mt : Nat) (sym ex : List Char) (ts total : Nat) :
    ∀ (chunks : List (List PItem)) (i : Nat) (st : BuilderState),
      (∀ c ∈ chunks, headerByteSize + itemByteSize * c.length ≤ 1472) →
      ∃ ps, emitChunksAux mt sym ex ts total i chunks st =
          (.ok ps, { st with seq := st.seq + chunks.length }) ∧
        ps.length = chunks.length ∧
        ∀ j : Nat, ps[j]? = (chunks[j]?).map (fun c =>
          chunkPacket (st.seq + j) st.now sym ex mt ts
            (decide (i + j = total - 1)) c) := by
  intro chunks
  induction chunks with
  | nil =>
    intro i st _
    refine ⟨[], ?_, rfl, ?_⟩
    · show (Except.ok [], st) = _
      congr 1
    · intro j
      simp
  | cons c cs ih =>
    intro i st hsz
    have hc : headerByteSize + itemByteSize * c.length ≤ 1472 :=
      hsz c (List.mem_cons_self c cs)
    obtain ⟨ps', heq', hlen', hget'⟩ :=
      ih (i + 1) { st with seq := st.seq + 1 }
        (fun d hd => hsz d (List.mem_cons_of_mem c hd))
    refine ⟨chunkPacket st.seq st.now sym ex mt ts (decide (i = total - 1)) c :: ps',
      ?_, by simp [hlen'], ?_⟩
    · show (match createPacket
          (chunkHeader st.seq st.now sym ex mt ts (decide (i = total - 1)) c.length) c with
        | .error e => (Except.error e, { st with seq := st.seq + 1 })
        | .ok p =>
          match emitChunksAux mt sym ex ts total (i + 1) cs
              { st with seq := st.seq + 1 } with
          | (.ok ps, st2) => (Except.ok (p :: ps), st2)
          | (.error e, st2) => (Except.error e, st2)) = _
      rw [createPacket_ok hc, heq']
      show (Except.ok _, _) = _
      refine congrArg₂ _ rfl ?_
      simp [Nat.add_assoc, Nat.add_comm 1 cs.length]
    · intro j
      cases j with
      | zero => simp [chunkPacket]
      | succ j =>
        have := hget' j
        simp only [List.getElem?_cons_succ]
        rw [this]
        have h1 : st.seq + 1 + j = st.seq + (j + 1) := by omega
        have h2 : i + 1 + j = i + (j + 1) := by omega
        simp [h1, h2]

theorem emitChunksAux_result (mt : Nat) (sym ex : List Char) (ts total : Nat) :
    ∀ (chunks : List (List PItem)) (i : Nat) (st : BuilderState),
      (∃ ps, emitChunksAux mt sym ex ts total i chunks st =
          (.ok ps, { st with seq := st.seq + chunks.length }) ∧
        ps.length = chunks.length ∧
        seqNumbers ps = List.range' st.seq chunks.length ∧
        ∀ p ∈ ps, p.size ≤ 1472 ∧ p.header.itemCount ≤ 80) ∨
      (∃ e k, emitChunksAux mt sym ex ts total i chunks st =
          (.error e, { st with seq := st.seq + k })) := by
  intro chunks
  induction chunks with
  | nil =>
    intro i st
    left
    refine ⟨[], ?_, rfl, rfl, by simp⟩
    show (Except.ok [], st) = (Except.ok [], { st with seq := st.seq + 0 })
    congr 1
  | cons c cs ih =>
    intro i st
    have hstep : emitChunksAux mt sym ex ts total i (c :: cs) st =
        (match createPacket
            ((setupHeader st sym ex mt ts).1.setFlagsAndCount (decide (i = total - 1))
              c.length) c with
         | .error e => (.error e, (setupHeader st sym ex mt ts).2)
         | .ok p =>
           match emitChunksAux mt sym ex ts total (i + 1) cs
               (setupHeader st sym ex mt ts).2 with
           | (.ok ps, st2) => (.ok (p :: ps), st2)
           | (.error e, st2) => (.error e, st2)) := rfl
    have hst1 : (setupHeader st sym ex mt ts).2 = { st with seq := st.seq + 1 } := rfl
    rw [hstep, hst1]
    cases hcp : createPacket
        ((setupHeader st sym ex mt ts).1.setFlagsAndCount (decide (i = total - 1))
          c.length) c with
    | error e =>
      right
      refine ⟨e, 1, rfl⟩
    | ok p =>
      rcases ih (i + 1) { st with seq := st.seq + 1 } with
        ⟨ps, heq, hlen, hseqs, hgood⟩ | ⟨e, k, heq⟩
      · left
        rw [heq]
        refine ⟨p :: ps, ?_, by simp [hlen], ?_, ?_⟩
        · refine congrArg₂ Prod.mk rfl ?_
          congr 1
          show st.seq + 1 + cs.length = st.seq + (c :: cs).length
          simp only [List.length_cons]
          omega
        · obtain ⟨hph, -, -, -⟩ := createPacket_ok_inv hcp
          show p.header.sequenceNumber :: seqNumbers ps = _
          rw [hph]
          have hphseq : ((setupHeader st sym ex mt ts).1.setFlagsAndCount
              (decide (i = total - 1)) c.length).sequenceNumber = st.seq := rfl
          rw [hphseq, List.length_cons, List.range'_succ, hseqs]
        · intro q hq
          rcases List.mem_cons.mp hq with hq | hq
          · subst hq
            obtain ⟨hph, -, -, hsz⟩ := createPacket_ok_inv hcp
            refine ⟨hsz, ?_⟩
            rw [hph]
            exact setFlagsAndCount_itemCount_le _ _ _
          · exact hgood q hq
      · right
        rw [heq]
        refine ⟨e, k + 1, congrArg₂ Prod.mk rfl ?_⟩
        congr 1
        show st.seq + 1 + k = st.seq + (k + 1)
        omega

/-! ### Lemmas: builder combinators and the sequence/size contracts -/

theorem bappend_eq (f g : Builder) (st : BuilderState) :
    bappend f g st =
      match f st with
      | (.ok ps, st1) =>
        match g st1 with
        | (.ok qs, st2) => (.ok (ps ++ qs), st2)
        | (.error e, st2) => (.error e, st2)
      | (.error e, st1) => (.error e, st1) := rfl

theorem liftOne_result {f : BuilderState → Except CryptoFeederError UdpPacket × BuilderState}
    {p : UdpPacket} {st st' : BuilderState} (h : f st = (.ok p, st')) :
    liftOne f st = (.ok [p], st') := by
  show (match f st with
    | (.ok p, st') => (Except.ok [p], st')
    | (.error e, st') => (Except.error e, st')) = _
  rw [h]

theorem spec_bnil : SeqSpec bnil ∧ GoodBuilder bnil := by
  constructor
  · intro st
    refine ⟨le_rfl, fun ps hps => ?_⟩
    cases hps
    exact ⟨rfl, rfl⟩
  · intro st ps hps
    cases hps
    simp

theorem spec_bappend {f g : Builder} (hf : SeqSpec f ∧ GoodBuilder f)
    (hg : SeqSpec g ∧ GoodBuilder g) :
    SeqSpec (bappend f g) ∧ GoodBuilder (bappend f g) := by
  have key : ∀ st : BuilderState,
      (∃ e st1, bappend f g st = (.error e, st1) ∧ st.seq ≤ st1.seq) ∨
      (∃ ps1 ps2 st2, bappend f g st = (.ok (ps1 ++ ps2), st2) ∧
        (f st).1 = .ok ps1 ∧ (g (f st).2).1 = .ok ps2 ∧ st2 = (g (f st).2).2) := by
    intro st
    cases hfst : f st with
    | mk r1 st1 =>
      have hf1 := (hf.1 st).1
      rw [hfst] at hf1
      cases r1 with
      | error e =>
        left
        refine ⟨e, st1, ?_, hf1⟩
        rw [bappend_eq, hfst]
      | ok ps1 =>
        cases hgst : g st1 with
        | mk r2 st2 =>
          have hg1 := (hg.1 st1).1
          rw [hgst] at hg1
          cases r2 with
          | error e =>
            left
            refine ⟨e, st2, ?_, le_trans hf1 hg1⟩
            rw [bappend_eq, hfst]
            show (match g st1 with
              | (.ok qs, st2) => (Except.ok (ps1 ++ qs), st2)
              | (.error e, st2) => (Except.error e, st2)) = _
            rw [hgst]
          | ok ps2 =>
            right
            refine ⟨ps1, ps2, st2, ?_, rfl, ?_, ?_⟩
            · rw [bappend_eq, hfst]
              show (match g st1 with
                | (.ok qs, st2) => (Except.ok (ps1 ++ qs), st2)
                | (.error e, st2) => (Except.error e, st2)) = _
              rw [hgst]
            · rfl
            · rfl
  constructor
  · intro st
    rcases key st with ⟨e, st1, hb, hmono⟩ | ⟨ps1, ps2, st2, hb, hok1, hok2, hst2⟩
    · rw [hb]
      exact ⟨hmono, fun ps hps => by cases hps⟩
    · rw [hb]
      obtain ⟨hs1, hf1'⟩ := (hf.1 st).2 ps1 hok1
      obtain ⟨hs2, hg1'⟩ := (hg.1 (f st).2).2 ps2 hok2
      refine ⟨?_, fun ps hps => ?_⟩
      · show st.seq ≤ st2.seq
        rw [hst2, hg1', hf1']
        omega
      · cases hps
        constructor
        · simp only [seqNumbers, List.map_append]
          simp only [seqNumbers] at hs1 hs2
          rw [hs1, hs2, hf1', List.length_append]
          exact range1_append st.seq ps1.length ps2.length
        · show st2.seq = _
          rw [hst2, hg1', hf1', List.length_append]
          omega
  · intro st ps hps
    rcases key st with ⟨e, st1, hb, -⟩ | ⟨ps1, ps2, st2, hb, hok1, hok2, -⟩
    · rw [hb] at hps
      cases hps
    · rw [hb] at hps
      cases hps
      intro p hp
      rcases List.mem_append.mp hp with hp | hp
      · exact hf.2 st ps1 hok1 p hp
      · exact hg.2 (f st).2 ps2 hok2 p hp

theorem spec_emitChunksAux (mt : Nat) (sym ex : List Char) (ts total : Nat)
    (chunks : List (List PItem)) (i : Nat) :
    SeqSpec (fun st => emitChunksAux mt sym ex ts total i chunks st) ∧
      GoodBuilder (fun st => emitChunksAux mt sym ex ts total i chunks st) := by
  constructor
  · intro st
    rcases emitChunksAux_result mt sym ex ts total chunks i st with
      ⟨ps, heq, hlen, hseqs, -⟩ | ⟨e, k, heq⟩
    · refine ⟨?_, fun ps' hps' => ?_⟩
      · show st.seq ≤ (emitChunksAux mt sym ex ts total i chunks st).2.seq
        rw [heq]
        exact Nat.le_add_right _ _
      · have : (emitChunksAux mt sym ex ts total i chunks st).1 = .ok ps := by rw [heq]
        rw [this] at hps'
        cases hps'
        refine ⟨by rw [hseqs, hlen], ?_⟩
        show (emitChunksAux mt sym ex ts total i chunks st).2.seq = _
        rw [heq, hlen]
    · refine ⟨?_, fun ps' hps' => ?_⟩
      · show st.seq ≤ (emitChunksAux mt sym ex ts total i chunks st).2.seq
        rw [heq]
        exact Nat.le_add_right _ _
      · have : (emitChunksAux mt sym ex ts total i chunks st).1 = .error e := by rw [heq]
        rw [this] at hps'
        cases hps'
  · intro st ps hps
    rcases emitChunksAux_result mt sym ex ts total chunks i st with
      ⟨ps', heq, -, -, hgood⟩ | ⟨e, k, heq⟩
    · have : (emitChunksAux mt sym ex ts total i chunks st).1 = .ok ps' := by rw [heq]
      rw [this] at hps
      cases hps
      exact hgood
    · have : (emitChunksAux mt sym ex ts total i chunks st).1 = .error e := by rw [heq]
      rw [this] at hps
      cases hps

/-! ### Lemmas: single-packet builders -/

theorem chunkHeader_sequenceNumber (seq now : Nat) (sym ex : List Char)
    (mt ts : Nat) (isLast : Bool) (count : Nat) :
    (chunkHeader seq now sym ex mt ts isLast count).sequenceNumber = seq := rfl

theorem chunkHeader_messageType (seq now : Nat) (sym ex : List Char)
    (mt ts : Nat) (isLast : Bool) (count : Nat) :
    (chunkHeader seq now sym ex mt ts isLast count).messageType = mt := rfl

theorem chunkHeader_exchangeTimestamp (seq now : Nat) (sym ex : List Char)
    (mt ts : Nat) (isLast : Bool) (count : Nat) :
    (chunkHeader seq now sym ex mt ts isLast count).exchangeTimestamp = ts := rfl

theorem chunkHeader_itemCount (seq now : Nat) (sym ex : List Char)
    (mt ts : Nat) (isLast : Bool) (count : Nat) :
    (chunkHeader seq now sym ex mt ts isLast count).itemCount = min count 80 :=
  setFlagsAndCount_itemCount _ _ _

theorem chunkHeader_isLastFlag (seq now : Nat) (sym ex : List Char)
    (mt ts : Nat) (isLast : Bool) (count : Nat) :
    (chunkHeader seq now sym ex mt ts isLast count).isLastFlag = isLast :=
  setFlagsAndCount_isLastFlag _ _ _

theorem chunkHeader_itemCount_le (seq now : Nat) (sym ex : List Char)
    (mt ts : Nat) (isLast : Bool) (count : Nat) :
    (chunkHeader seq now sym ex mt ts isLast count).itemCount ≤ 80 :=
  setFlagsAndCount_itemCount_le _ _ _

theorem buildSingleValuePacket_eq (sym ex : List Char) (mt ts : Nat) (v : Int)
    (st : BuilderState) :
    buildSingleValuePacket sym ex mt ts v st =
      (.ok (chunkPacket st.seq st.now sym ex mt ts true [PItem.single v]),
       { st with seq := st.seq + 1 }) := rfl

theorem buildLiquidationPacket_eq (sym ex : List Char) (ts : Nat)
    (price qty : ℚ) (isSell : Bool) (st : BuilderState) :
    buildLiquidationPacket sym ex ts price qty isSell st =
      (.ok (chunkPacket st.seq st.now sym ex MESSAGE_TYPE_LIQUIDATION ts true
        [PItem.liq (WireItem.new price qty isSell)]),
       { st with seq := st.seq + 1 }) := rfl

theorem buildEventPacketWithExchange_eq (e : SystemEvent) (ex : List Char)
    (st : BuilderState) :
    buildEventPacketWithExchange e ex st =
      (.ok { header := ((({ PacketHeader.new with
              protocolVersion := 1
              sequenceNumber := st.seq
              exchangeTimestamp := st.now
              localTimestamp := st.now
              messageType := e.getMessageType }).setFlagsAndCount true
                1).setSymbol e.getSymbol).setExchange ex
             items := [e.getPayload]
             size := 83 },
       { st with seq := st.seq + 1 }) := rfl

theorem spec_liftOne
    {f : BuilderState → Except CryptoFeederError UdpPacket × BuilderState}
    (hf : ∀ st : BuilderState, ∃ p, f st = (.ok p, { st with seq := st.seq + 1 }) ∧
      p.header.sequenceNumber = st.seq ∧ p.size ≤ 1472 ∧ p.header.itemCount ≤ 80) :
    SeqSpec (liftOne f) ∧ GoodBuilder (liftOne f) := by
  constructor
  · intro st
    obtain ⟨p, heq, hseq, -, -⟩ := hf st
    have hl := liftOne_result heq
    refine ⟨?_, fun ps hps => ?_⟩
    · show st.seq ≤ (liftOne f st).2.seq
      rw [hl]
      show st.seq ≤ st.seq + 1
      omega
    · have : (liftOne f st).1 = .ok [p] := by rw [hl]
      rw [this] at hps
      cases hps
      refine ⟨?_, ?_⟩
      · show [p.header.sequenceNumber] = List.range' st.seq 1
        rw [hseq]
        rfl
      · show (liftOne f st).2.seq = _
        rw [hl]
        rfl
  · intro st ps hps
    obtain ⟨p, heq, -, hsz, hic⟩ := hf st
    have hl := liftOne_result heq
    rw [hl] at hps
    cases hps
    intro q hq
    rw [List.mem_singleton] at hq
    subst hq
    exact ⟨hsz, hic⟩

theorem spec_buildSingleValue (sym ex : List Char) (mt ts : Nat) (v : Int) :
    SeqSpec (liftOne (buildSingleValuePacket sym ex mt ts v)) ∧
      GoodBuilder (liftOne (buildSingleValuePacket sym ex mt ts v)) := by
  refine spec_liftOne (fun st => ⟨_, buildSingleValuePacket_eq sym ex mt ts v st,
    chunkHeader_sequenceNumber _ _ _ _ _ _ _ _, by norm_num [chunkPacket, itemByteSize,
      headerByteSize], chunkHeader_itemCount_le _ _ _ _ _ _ _ _⟩)

theorem spec_buildLiquidation (sym ex : List Char) (ts : Nat) (price qty : ℚ)
    (isSell : Bool) :
    SeqSpec (liftOne (buildLiquidationPacket sym ex ts price qty isSell)) ∧
      GoodBuilder (liftOne (buildLiquidationPacket sym ex ts price qty isSell)) := by
  refine spec_liftOne (fun st => ⟨_, buildLiquidationPacket_eq sym ex ts price qty isSell st,
    chunkHeader_sequenceNumber _ _ _ _ _ _ _ _, by norm_num [chunkPacket, itemByteSize,
      headerByteSize], chunkHeader_itemCount_le _ _ _ _ _ _ _ _⟩)

theorem spec_buildEvent (e : SystemEvent) (ex : List Char) :
    SeqSpec (liftOne (buildEventPacketWithExchange e ex)) ∧
      GoodBuilder (liftOne (buildEventPacketWithExchange e ex)) := by
  refine spec_liftOne (fun st => ⟨_, buildEventPacketWithExchange_eq e ex st,
    rfl, by norm_num, ?_⟩)
  show (((({ PacketHeader.new with
      protocolVersion := 1
      sequenceNumber := st.seq
      exchangeTimestamp := st.now
      localTimestamp := st.now
      messageType := e.getMessageType }).setFlagsAndCount true
        1).setSymbol e.getSymbol).setExchange ex).itemCount ≤ 80
  have h1 : ∀ (h : PacketHeader) (s : List Char), (h.setSymbol s).itemCount = h.itemCount :=
    fun _ _ => rfl
  have h2 : ∀ (h : PacketHeader) (s : List Char), (h.setExchange s).itemCount = h.itemCount :=
    fun _ _ => rfl
  rw [h2, h1]
  exact setFlagsAndCount_itemCount_le _ _ _

/-! ### Lemmas: sequence/size contracts of every build path -/

theorem spec_buildTradeBatchPackets (batch : StandardizedTradeBatch) :
    SeqSpec (buildTradeBatchPackets batch) ∧ GoodBuilder (buildTradeBatchPackets batch) := by
  by_cases h : batch.trades = []
  · have heq : buildTradeBatchPackets batch = bnil := by
      funext st
      simp [buildTradeBatchPackets, h, bnil]
    rw [heq]
    exact spec_bnil
  · have heq : buildTradeBatchPackets batch = fun st =>
        emitChunksAux MESSAGE_TYPE_TRADE_TICK batch.symbol batch.exchange
          batch.exchangeTimestamp
          ((chunksOf 80 (sortTradesStable batch.trades)).map
            (fun c => c.map mkTradeItem)).length 0
          ((chunksOf 80 (sortTradesStable batch.trades)).map
            (fun c => c.map mkTradeItem)) st := by
      funext st
      simp [buildTradeBatchPackets, h]
    rw [heq]
    exact spec_emitChunksAux _ _ _ _ _ _ _

theorem spec_buildSymbolGroups (ts : Nat) :
    ∀ groups, SeqSpec (buildSymbolGroups ts groups) ∧
      GoodBuilder (buildSymbolGroups ts groups)
  | [] => spec_bnil
  | ((sym, ex), groupTrades) :: rest =>
    spec_bappend (spec_emitChunksAux MESSAGE_TYPE_TRADE_TICK sym ex ts _ _ 0)
      (spec_buildSymbolGroups ts rest)

theorem spec_buildTimestampGroups :
    ∀ groups, SeqSpec (buildTimestampGroups groups) ∧
      GoodBuilder (buildTimestampGroups groups)
  | [] => spec_bnil
  | (ts, group) :: rest =>
    spec_bappend (spec_buildSymbolGroups ts _) (spec_buildTimestampGroups rest)

theorem spec_buildTradePacketsBatch (trades : List StandardizedTrade) :
    SeqSpec (buildTradePacketsBatch trades) ∧
      GoodBuilder (buildTradePacketsBatch trades) := by
  by_cases h : trades = []
  · have heq : buildTradePacketsBatch trades = bnil := by
      funext st
      simp [buildTradePacketsBatch, h, bnil]
    rw [heq]
    exact spec_bnil
  · have heq : buildTradePacketsBatch trades =
        buildTimestampGroups (groupByKey (fun t => t.timestamp) trades) := by
      funext st
      simp [buildTradePacketsBatch, h]
    rw [heq]
    exact spec_buildTimestampGroups _

theorem spec_buildTradePackets (t : StandardizedTrade) :
    SeqSpec (buildTradePackets t) ∧ GoodBuilder (buildTradePackets t) :=
  spec_buildTradePacketsBatch [t]

theorem spec_buildOrderBookPackets (ob : StandardizedOrderBookUpdate) :
    SeqSpec (buildOrderBookPackets ob) ∧ GoodBuilder (buildOrderBookPackets ob) := by
  by_cases h : orderBookBidItems ob ++ orderBookAskItems ob = []
  · have heq : buildOrderBookPackets ob = bnil := by
      funext st
      simp [buildOrderBookPackets, h, bnil]
    rw [heq]
    exact spec_bnil
  · have heq : buildOrderBookPackets ob = fun st =>
        emitChunksAux MESSAGE_TYPE_ORDER_BOOK ob.symbol ob.exchange ob.timestamp
          (chunksOf 80 (orderBookBidItems ob ++ orderBookAskItems ob)).length 0
          (chunksOf 80 (orderBookBidItems ob ++ orderBookAskItems ob)) st := by
      funext st
      simp [buildOrderBookPackets, h]
    rw [heq]
    exact spec_emitChunksAux _ _ _ _ _ _ _

mutual

theorem spec_buildPackets : ∀ d : ParsedData,
    SeqSpec (buildPackets d) ∧ GoodBuilder (buildPackets d)
  | .trade t => by
    rw [show buildPackets (.trade t) = buildTradePackets t from by
      simp [buildPackets]]
    exact spec_buildTradePackets t
  | .tradeBatch b => by
    rw [show buildPackets (.tradeBatch b) = buildTradeBatchPackets b from by
      simp [buildPackets]]
    exact spec_buildTradeBatchPackets b
  | .orderBook ob => by
    rw [show buildPackets (.orderBook ob) = buildOrderBookPackets ob from by
      simp [buildPackets]]
    exact spec_buildOrderBookPackets ob
  | .indexPrice s ex v ts => by
    rw [show buildPackets (.indexPrice s ex v ts) =
        liftOne (buildSingleValuePacket s ex MESSAGE_TYPE_INDEX_PRICE ts
          (f64ToI64 (v * (PRICE_SCALE : ℚ)))) from by simp [buildPackets]]
    exact spec_buildSingleValue _ _ _ _ _
  | .markPrice s ex v ts => by
    rw [show buildPackets (.markPrice s ex v ts) =
        liftOne (buildSingleValuePacket s ex MESSAGE_TYPE_MARK_PRICE ts
          (f64ToI64 (v * (PRICE_SCALE : ℚ)))) from by simp [buildPackets]]
    exact spec_buildSingleValue _ _ _ _ _
  | .fundingRate s ex v ts => by
    rw [show buildPackets (.fundingRate s ex v ts) =
        liftOne (buildSingleValuePacket s ex MESSAGE_TYPE_FUNDING_RATE ts
          (f64ToI64 (v * (FUNDING_RATE_SCALE : ℚ)))) from by simp [buildPackets]]
    exact spec_buildSingleValue _ _ _ _ _
  | .liquidation s ex p q isSell ts => by
    rw [show buildPackets (.liquidation s ex p q isSell ts) =
        liftOne (buildLiquidationPacket s ex ts p q isSell) from by
      simp [buildPackets]]
    exact spec_buildLiquidation _ _ _ _ _ _
  | .multi items => by
    rw [show buildPackets (.multi items) = buildMulti items from by
      simp [buildPackets]]
    exact spec_buildMulti items

theorem spec_buildMulti : ∀ l : List ParsedData,
    SeqSpec (buildMulti l) ∧ GoodBuilder (buildMulti l)
  | [] => by
    rw [show buildMulti [] = bnil from by simp [buildMulti]]
    exact spec_bnil
  | d :: rest => by
    rw [show buildMulti (d :: rest) = bappend (buildPackets d) (buildMulti rest) from by
      simp [buildMulti]]
    exact spec_bappend (spec_buildPackets d) (spec_buildMulti rest)

end

theorem spec_runOp : ∀ op : BuildOp, SeqSpec (runOp op) ∧ GoodBuilder (runOp op)
  | .parsed d => spec_buildPackets d
  | .event e ex => spec_buildEvent e ex

/-! ### Lemmas: emission traces (C2) -/

theorem emittedPackets_cons (r : Except CryptoFeederError (List UdpPacket))
    (rs : List (Except CryptoFeederError (List UdpPacket))) :
    emittedPackets (r :: rs) =
      (match r with
       | .ok ps => ps
       | .error _ => []) ++ emittedPackets rs := rfl

theorem mem_of_mem_getLast? {α : Type _} {l : List α} {a : α}
    (h : a ∈ l.getLast?) : a ∈ l := by
  obtain ⟨hne, rfl⟩ := List.mem_getLast?_eq_getLast h
  exact List.getLast_mem hne

theorem runTrace_blocks : ∀ (ops : List BuildOp) (st : BuilderState),
    (∀ x ∈ seqNumbers (emittedPackets (runTrace st ops)), st.seq ≤ x) ∧
      List.Chain' (· < ·) (seqNumbers (emittedPackets (runTrace st ops))) ∧
      (allOk (runTrace st ops) →
        seqNumbers (emittedPackets (runTrace st ops)) =
          List.range' st.seq (emittedPackets (runTrace st ops)).length) := by
  intro ops
  induction ops with
  | nil =>
    intro st
    refine ⟨by simp [runTrace, emittedPackets, seqNumbers], by
      simp [runTrace, emittedPackets, seqNumbers], fun _ => rfl⟩
  | cons op rest ih =>
    intro st
    obtain ⟨hmono, hokcl⟩ := (spec_runOp op).1 st
    obtain ⟨ihlow, ihchain, ihall⟩ := ih (runOp op st).2
    have hrt : runTrace st (op :: rest) =
        (runOp op st).1 :: runTrace (runOp op st).2 rest := rfl
    cases hop : (runOp op st).1 with
    | error e =>
      rw [hrt, hop, emittedPackets_cons]
      refine ⟨?_, by simpa using ihchain, ?_⟩
      · intro x hx
        simp only [List.nil_append] at hx
        exact le_trans hmono (ihlow x hx)
      · intro hall
        exfalso
        obtain ⟨ps, hps⟩ := hall _ (List.mem_cons_self _ _)
        simp at hps
    | ok ps1 =>
      obtain ⟨hs1, hfin⟩ := hokcl ps1 hop
      rw [hrt, hop, emittedPackets_cons]
      have hjoin : seqNumbers (ps1 ++ emittedPackets (runTrace (runOp op st).2 rest)) =
          seqNumbers ps1 ++ seqNumbers (emittedPackets (runTrace (runOp op st).2 rest)) := by
        simp [seqNumbers]
      refine ⟨?_, ?_, ?_⟩
      · intro x hx
        rw [hjoin] at hx
        rcases List.mem_append.mp hx with hx | hx
        · rw [hs1] at hx
          exact (List.mem_range'_1.mp hx).1
        · exact le_trans hmono (ihlow x hx)
      · rw [hjoin]
        rw [List.chain'_append]
        refine ⟨?_, ihchain, ?_⟩
        · rw [hs1]
          exact (List.pairwise_lt_range' _ _).chain'
        · intro x hx y hy
          have hxmem := mem_of_mem_getLast? hx
          rw [hs1] at hxmem
          have hxlt : x < st.seq + ps1.length := (List.mem_range'_1.mp hxmem).2
          have hy' := ihlow y (List.mem_of_mem_head? hy)
          rw [hfin] at hy'
          omega
      · intro hall
        have hallrest : allOk (runTrace (runOp op st).2 rest) := by
          intro r hr
          exact hall r (List.mem_cons_of_mem _ hr)
        rw [hjoin, hs1, ihall hallrest, hfin, List.length_append]
        exact range1_append st.seq ps1.length _

theorem allOk_of_all_isOk {rs : List (Except CryptoFeederError (List UdpPacket))}
    (h : rs.all Except.isOk = true) : allOk rs := by
  intro r hr
  have := List.all_eq_true.mp h r hr
  cases r with
  | ok ps => exact ⟨ps, rfl⟩
  | error e => simp [Except.isOk, Except.toBool] at this

/-- C2: over any finite trace of build operations run against one
freshly-created `PacketBuilder` (sequence counter initialized to 1), the
emitted datagrams carry strictly increasing sequence numbers, each drawn
once per datagram from the shared counter; and when no build fails, the
emitted sequence numbers are exactly 1, 2, 3, … — a strictly increasing
sequence starting at 1, shared across all message types. -/
theorem claim_C2_sequence_numbers (ops : List BuildOp) (now : Nat) :
    List.Chain' (· < ·)
        (seqNumbers (emittedPackets (runTrace (initialBuilderState now) ops))) ∧
      (allOk (runTrace (initialBuilderState now) ops) →
        seqNumbers (emittedPackets (runTrace (initialBuilderState now) ops)) =
          List.range' 1
            (emittedPackets (runTrace (initialBuilderState now) ops)).length) := by
  obtain ⟨-, hchain, hall⟩ := runTrace_blocks ops (initialBuilderState now)
  exact ⟨hchain, hall⟩

/-- Witness for C2 on a concrete two-operation trace (two system events):
the emitted sequence numbers are exactly [1, 2]. -/
theorem claim_C2_witness :
    seqNumbers (emittedPackets (runTrace (initialBuilderState 0)
        [.event (SystemEvent.heartbeat 1 2 3) ("FEEDER".toList),
         .event (SystemEvent.heartbeat 4 5 6) ("FEEDER".toList)])) =
      List.range' 1
        (emittedPackets (runTrace (initialBuilderState 0)
          [.event (SystemEvent.heartbeat 1 2 3) ("FEEDER".toList),
           .event (SystemEvent.heartbeat 4 5 6) ("FEEDER".toList)])).length :=
  (claim_C2_sequence_numbers
    [.event (SystemEvent.heartbeat 1 2 3) ("FEEDER".toList),
     .event (SystemEvent.heartbeat 4 5 6) ("FEEDER".toList)] 0).2
    (allOk_of_all_isOk (by rfl))

/-! ### C6: the MTU guard -/

/-- C6: packet construction fails with a serialization error exactly when
the assembled datagram (67-byte header plus 16-byte items) would exceed
1472 bytes, and then no datagram is produced (the `Result` carries only
the error); a datagram carrying 90 items (67 + 90·16 = 1507 bytes)
raises a serialization error; and every successfully built datagram of
any build path has length at most 1472 and header item_count at most
80. -/
theorem claim_C6_mtu_guard :
    (∀ (h : PacketHeader) (items : List PItem),
      (∃ e, createPacket h items = .error e) ↔
        1472 < headerByteSize + itemByteSize * items.length) ∧
      createPacket (PacketHeader.new.setFlagsAndCount true 90)
          (List.replicate 90 (PItem.single 0)) = .error .serializationError ∧
      (∀ (d : ParsedData) (st : BuilderState) (ps : List UdpPacket),
        (buildPackets d st).1 = .ok ps →
        ∀ p ∈ ps, p.size ≤ 1472 ∧ p.header.itemCount ≤ 80) := by
  refine ⟨createPacket_error_iff, rfl, ?_⟩
  intro d st ps hps
  exact (spec_buildPackets d).2 st ps hps

/-- Witness for C6: the error criterion applied at the 90-item input, and
the size bounds applied to the concrete packets built from a mark-price
record. -/
theorem claim_C6_witness :
    (∃ e, createPacket PacketHeader.new (List.replicate 90 (PItem.single 0)) =
      .error e) ∧
      ∀ p ∈ [chunkPacket 1 0 ("BTC^USDT".toList) ("BinanceFutures".toList)
          MESSAGE_TYPE_MARK_PRICE 5 true
          [PItem.single (f64ToI64 ((50000 : ℚ) * (PRICE_SCALE : ℚ)))]],
        p.size ≤ 1472 ∧ p.header.itemCount ≤ 80 := by
  constructor
  · exact (claim_C6_mtu_guard.1 PacketHeader.new
      (List.replicate 90 (PItem.single 0))).mpr
      (by simp [headerByteSize, itemByteSize])
  · refine claim_C6_mtu_guard.2.2
      (.markPrice ("BTC^USDT".toList) ("BinanceFutures".toList) 50000 5)
      (initialBuilderState 0) _ ?_
    rw [show buildPackets
        (.markPrice ("BTC^USDT".toList) ("BinanceFutures".toList) 50000 5) =
      liftOne (buildSingleValuePacket ("BTC^USDT".toList) ("BinanceFutures".toList)
        MESSAGE_TYPE_MARK_PRICE 5 (f64ToI64 ((50000 : ℚ) * (PRICE_SCALE : ℚ)))) from rfl]
    rw [liftOne_result (buildSingleValuePacket_eq _ _ _ _ _ _)]
    rfl

/-! ### Lemmas: comparators and stable sorting (C4, C5) -/

theorem cmpQ_ne_gt_iff {a b : ℚ} : cmpQ a b ≠ .gt ↔ a ≤ b := by
  unfold cmpQ
  rcases lt_trichotomy a b with h | h | h
  · simp [h, not_lt_of_lt h, le_of_lt h]
  · simp [h, lt_irrefl]
  · simp [not_lt_of_lt h, h, not_le_of_lt h]

theorem tradeLe_tt {a b : StandardizedTrade} (ha : a.isBuyerTaker = true)
    (hb : b.isBuyerTaker = true) : tradeLe a b ↔ a.price ≤ b.price := by
  unfold tradeLe tradeCmp
  rw [ha, hb]
  exact cmpQ_ne_gt_iff

theorem tradeLe_ff {a b : StandardizedTrade} (ha : a.isBuyerTaker = false)
    (hb : b.isBuyerTaker = false) : tradeLe a b ↔ b.price ≤ a.price := by
  unfold tradeLe tradeCmp
  rw [ha, hb]
  exact cmpQ_ne_gt_iff

theorem tradeLe_tf {a b : StandardizedTrade} (ha : a.isBuyerTaker = true)
    (hb : b.isBuyerTaker = false) : tradeLe a b := by
  unfold tradeLe tradeCmp
  rw [ha, hb]
  simp

theorem tradeLe_ft {a b : StandardizedTrade} (ha : a.isBuyerTaker = false)
    (hb : b.isBuyerTaker = true) : ¬ tradeLe a b := by
  unfold tradeLe tradeCmp
  rw [ha, hb]
  simp

instance : IsTotal StandardizedTrade tradeLe := by
  constructor
  intro a b
  cases ha : a.isBuyerTaker <;> cases hb : b.isBuyerTaker
  · rcases le_total b.price a.price with h | h
    · exact Or.inl ((tradeLe_ff ha hb).mpr h)
    · exact Or.inr ((tradeLe_ff hb ha).mpr h)
  · exact Or.inr (tradeLe_tf hb ha)
  · exact Or.inl (tradeLe_tf ha hb)
  · rcases le_total a.price b.price with h | h
    · exact Or.inl ((tradeLe_tt ha hb).mpr h)
    · exact Or.inr ((tradeLe_tt hb ha).mpr h)

instance : IsTrans StandardizedTrade tradeLe := by
  constructor
  intro a b c hab hbc
  cases ha : a.isBuyerTaker <;> cases hb : b.isBuyerTaker <;>
    cases hc : c.isBuyerTaker
  · exact (tradeLe_ff ha hc).mpr
      (le_trans ((tradeLe_ff hb hc).mp hbc) ((tradeLe_ff ha hb).mp hab))
  · exact absurd hbc (tradeLe_ft hb hc)
  · exact absurd hab (tradeLe_ft ha hb)
  · exact absurd hab (tradeLe_ft ha hb)
  · exact tradeLe_tf ha hc
  · exact absurd hbc (tradeLe_ft hb hc)
  · exact tradeLe_tf ha hc
  · exact (tradeLe_tt ha hc).mpr
      (le_trans ((tradeLe_tt ha hb).mp hab) ((tradeLe_tt hb hc).mp hbc))

theorem sortTrades_pairwise (l : List StandardizedTrade) :
    (sortTradesStable l).Pairwise tradePairOrd := by
  have hs : (sortTradesStable l).Pairwise tradeLe :=
    List.sorted_insertionSort tradeLe l
  refine hs.imp ?_
  intro a b hab
  cases ha : a.isBuyerTaker <;> cases hb : b.isBuyerTaker
  · exact ⟨fun h _ => absurd ha (by rw [h]; simp),
      fun _ _ => (tradeLe_ff ha hb).mp hab, fun _ => hb⟩
  · exact absurd hab (tradeLe_ft ha hb)
  · exact ⟨fun _ h => absurd hb (by rw [h]; simp),
      fun h _ => absurd ha (by rw [h]; simp), fun h => absurd ha (by rw [h]; simp)⟩
  · exact ⟨fun _ _ => (tradeLe_tt ha hb).mp hab,
      fun h _ => absurd ha (by rw [h]; simp), fun h => absurd ha (by rw [h]; simp)⟩

theorem filter_orderedInsert_pos {α : Type _} (r : α → α → Prop) [DecidableRel r]
    (p : α → Bool) (a : α) (hp : p a = true) :
    ∀ l : List α, (∀ b ∈ l, p b = true → r a b) →
      (l.orderedInsert r a).filter p = a :: l.filter p := by
  intro l
  induction l with
  | nil => intro _; simp [hp]
  | cons b t ih =>
    intro hr
    by_cases hab : r a b
    · rw [List.orderedInsert_of_le r t hab]
      simp [hp]
    · have hpb : p b = false := by
        cases hpb : p b with
        | true => exact absurd (hr b (List.mem_cons_self b t) hpb) hab
        | false => rfl
      show ((if r a b then a :: b :: t else b :: t.orderedInsert r a).filter p) = _
      rw [if_neg hab]
      rw [List.filter_cons_of_neg (by simp [hpb])]
      rw [ih (fun c hc => hr c (List.mem_cons_of_mem b hc))]
      rw [List.filter_cons_of_neg (by simp [hpb])]

theorem filter_orderedInsert_neg {α : Type _} (r : α → α → Prop) [DecidableRel r]
    (p : α → Bool) (a : α) (hp : p a = false) :
    ∀ l : List α, (l.orderedInsert r a).filter p = l.filter p := by
  intro l
  induction l with
  | nil => simp [hp]
  | cons b t ih =>
    by_cases hab : r a b
    · rw [List.orderedInsert_of_le r t hab]
      simp [hp]
    · show ((if r a b then a :: b :: t else b :: t.orderedInsert r a).filter p) = _
      rw [if_neg hab]
      cases hpb : p b with
      | true =>
        rw [List.filter_cons_of_pos (by simp [hpb]),
          List.filter_cons_of_pos (by simp [hpb]), ih]
      | false =>
        rw [List.filter_cons_of_neg (by simp [hpb]),
          List.filter_cons_of_neg (by simp [hpb]), ih]

theorem filter_insertionSort {α : Type _} (r : α → α → Prop) [DecidableRel r]
    (p : α → Bool) (hcl : ∀ a b, p a = true → p b = true → r a b) :
    ∀ l : List α, (l.insertionSort r).filter p = l.filter p := by
  intro l
  induction l with
  | nil => rfl
  | cons a t ih =>
    show ((t.insertionSort r).orderedInsert r a).filter p = (a :: t).filter p
    cases hpa : p a with
    | true =>
      rw [filter_orderedInsert_pos r p a hpa _
        (fun b _ hb => hcl a b hpa hb), ih]
      rw [List.filter_cons_of_pos (by simp [hpa])]
    | false =>
      rw [filter_orderedInsert_neg r p a hpa, ih]
      rw [List.filter_cons_of_neg (by simp [hpa])]

theorem sortTrades_stable (l : List StandardizedTrade) (side : Bool) (price : ℚ) :
    (sortTradesStable l).filter (sameSidePrice side price) =
      l.filter (sameSidePrice side price) := by
  refine filter_insertionSort tradeLe _ ?_ l
  intro a b ha hb
  simp only [sameSidePrice, Bool.decide_and, Bool.and_eq_true, decide_eq_true_eq] at ha hb
  obtain ⟨has, hap⟩ := ha
  obtain ⟨hbs, hbp⟩ := hb
  cases side with
  | false =>
    refine (tradeLe_ff has hbs).mpr ?_
    rw [hap, hbp]
  | true =>
    refine (tradeLe_tt has hbs).mpr ?_
    rw [hap, hbp]

instance : IsTotal OrderBookLevel levelDescLe := by
  constructor
  intro a b
  rcases le_total b.price a.price with h | h
  · exact Or.inl (by unfold levelDescLe; exact cmpQ_ne_gt_iff.mpr h)
  · exact Or.inr (by unfold levelDescLe; exact cmpQ_ne_gt_iff.mpr h)

instance : IsTrans OrderBookLevel levelDescLe := by
  constructor
  intro a b c hab hbc
  unfold levelDescLe at *
  exact cmpQ_ne_gt_iff.mpr
    (le_trans (cmpQ_ne_gt_iff.mp hbc) (cmpQ_ne_gt_iff.mp hab))

instance : IsTotal OrderBookLevel levelAscLe := by
  constructor
  intro a b
  rcases le_total a.price b.price with h | h
  · exact Or.inl (by unfold levelAscLe; exact cmpQ_ne_gt_iff.mpr h)
  · exact Or.inr (by unfold levelAscLe; exact cmpQ_ne_gt_iff.mpr h)

instance : IsTrans OrderBookLevel levelAscLe := by
  constructor
  intro a b c hab hbc
  unfold levelAscLe at *
  exact cmpQ_ne_gt_iff.mpr
    (le_trans (cmpQ_ne_gt_iff.mp hab) (cmpQ_ne_gt_iff.mp hbc))

theorem bidsKept_pairwise (ob : StandardizedOrderBookUpdate) :
    ((ob.bids.insertionSort levelDescLe).filter
        (fun l => decide (0 < l.quantity))).Pairwise
      (fun a b => b.price ≤ a.price) := by
  have hs : (ob.bids.insertionSort levelDescLe).Pairwise levelDescLe :=
    List.sorted_insertionSort levelDescLe ob.bids
  exact (hs.imp (fun h => cmpQ_ne_gt_iff.mp h)).sublist (List.filter_sublist _)

theorem asksKept_pairwise (ob : StandardizedOrderBookUpdate) :
    ((ob.asks.insertionSort levelAscLe).filter
        (fun l => decide (0 < l.quantity))).Pairwise
      (fun a b => a.price ≤ b.price) := by
  have hs : (ob.asks.insertionSort levelAscLe).Pairwise levelAscLe :=
    List.sorted_insertionSort levelAscLe ob.asks
  exact (hs.imp (fun h => cmpQ_ne_gt_iff.mp h)).sublist (List.filter_sublist _)

theorem WireItem_flag_new (p q : ℚ) (b : Bool) : (WireItem.new p q b).flag = b := by
  unfold WireItem.new WireItem.flag packQuantityAndFlag
  cases b with
  | false => simp; omega
  | true => simp [Nat.le_add_left]

theorem ratTruncate_mono {a b : ℚ} (h : a ≤ b) : ratTruncate a ≤ ratTruncate b := by
  unfold ratTruncate
  by_cases ha : 0 ≤ a
  · rw [if_pos ha, if_pos (le_trans ha h)]
    exact Int.floor_le_floor h
  · rw [if_neg ha]
    by_cases hb : 0 ≤ b
    · rw [if_pos hb]
      calc ⌈a⌉ ≤ ⌈(0 : ℚ)⌉ := Int.ceil_le_ceil (le_of_not_le ha)
        _ = 0 := Int.ceil_zero
        _ ≤ ⌊b⌋ := Int.floor_nonneg.mpr hb
    · rw [if_neg hb]
      exact Int.ceil_le_ceil h

theorem f64ToI64_mono {a b : ℚ} (h : a ≤ b) : f64ToI64 a ≤ f64ToI64 b := by
  unfold f64ToI64
  exact max_le_max le_rfl (min_le_min le_rfl (ratTruncate_mono h))

theorem scaledPrice_mono {a b : ℚ} (h : a ≤ b) :
    f64ToI64 (a * (PRICE_SCALE : ℚ)) ≤ f64ToI64 (b * (PRICE_SCALE : ℚ)) :=
  f64ToI64_mono (mul_le_mul_of_nonneg_right h (by norm_num [PRICE_SCALE]))

theorem mem_of_getElem? {l : List α} {j : Nat} {a : α} (h : l[j]? = some a) :
    a ∈ l := by
  have hj : j < l.length := by
    by_contra hcon
    rw [List.getElem?_eq_none (Nat.le_of_not_lt hcon)] at h
    cases h
  rw [List.getElem?_eq_getElem hj] at h
  rw [← Option.some.inj h]
  exact List.getElem_mem hj

theorem bappend_result {f g : Builder} {ps qs : List UdpPacket}
    {st st1 st2 : BuilderState} (hf : f st = (.ok ps, st1))
    (hg : g st1 = (.ok qs, st2)) :
    bappend f g st = (.ok (ps ++ qs), st2) := by
  unfold bappend
  rw [hf]
  show (match g st1 with
    | (.ok qs, st2) => (Except.ok (ps ++ qs), st2)
    | (.error e, st2) => (Except.error e, st2)) = (Except.ok (ps ++ qs), st2)
  rw [hg]

theorem chunksAux_map (f : α → β) (n : Nat) :
    ∀ (fuel : Nat) (l : List α),
      chunksAux n fuel (l.map f) = (chunksAux n fuel l).map (List.map f) := by
  intro fuel
  induction fuel with
  | zero =>
    intro l
    cases l <;> rfl
  | succ fuel ih =>
    intro l
    cases l with
    | nil => rfl
    | cons a t =>
      have h1 : chunksAux n (fuel + 1) ((a :: t).map f) =
          ((a :: t).map f).take n :: chunksAux n fuel (((a :: t).map f).drop n) := by
        rw [List.map_cons, chunksAux_cons]
      rw [h1, chunksAux_cons, ← List.map_take, ← List.map_drop, ih]
      rfl

theorem chunksOf_map (f : α → β) (n : Nat) (l : List α) :
    chunksOf n (l.map f) = (chunksOf n l).map (List.map f) := by
  unfold chunksOf
  rw [List.length_map]
  exact chunksAux_map f n l.length l

theorem groupByKey_const [DecidableEq κ] (key : α → κ) (k0 : κ) :
    ∀ l : List α, l ≠ [] → (∀ a ∈ l, key a = k0) → groupByKey key l = [(k0, l)] := by
  intro l
  induction l with
  | nil => intro h _; exact absurd rfl h
  | cons a t ih =>
    intro _ hall
    have hka : key a = k0 := hall a (List.mem_cons_self a t)
    cases t with
    | nil => simp [groupByKey, hka]
    | cons b t2 =>
      have ht : groupByKey key (b :: t2) = [(k0, b :: t2)] :=
        ih (List.cons_ne_nil b t2) (fun x hx => hall x (List.mem_cons_of_mem a hx))
      show (if ((groupByKey key (b :: t2)).lookup (key a)).isSome then
          (groupByKey key (b :: t2)).map
            (fun g => if g.1 = key a then (g.1, a :: g.2) else g)
        else (key a, [a]) :: groupByKey key (b :: t2)) = [(k0, a :: b :: t2)]
      rw [ht, hka]
      simp [List.lookup]

theorem chunkPacket_items (seq now : Nat) (sym ex : List Char) (mt ts : Nat)
    (isLast : Bool) (c : List PItem) :
    (chunkPacket seq now sym ex mt ts isLast c).items = c := rfl

theorem chunkPacket_itemCount (seq now : Nat) (sym ex : List Char) (mt ts : Nat)
    (isLast : Bool) (c : List PItem) :
    (chunkPacket seq now sym ex mt ts isLast c).header.itemCount = min c.length 80 :=
  chunkHeader_itemCount _ _ _ _ _ _ _ _

theorem chunkPacket_isLastFlag (seq now : Nat) (sym ex : List Char) (mt ts : Nat)
    (isLast : Bool) (c : List PItem) :
    (chunkPacket seq now sym ex mt ts isLast c).header.isLastFlag = isLast :=
  chunkHeader_isLastFlag _ _ _ _ _ _ _ _

theorem emitChunks_spec (mt : Nat) (sym ex : List Char) (ts n : Nat)
    (items0 : List PItem) (st : BuilderState) (hn : 0 < n) (hn80 : n ≤ 80)
    (hfit : headerByteSize + itemByteSize * n ≤ 1472) (hne : items0 ≠ []) :
    ∃ ps, emitChunksAux mt sym ex ts (chunksOf n items0).length 0
        (chunksOf n items0) st =
        (.ok ps, { st with seq := st.seq + ps.length }) ∧
      ps.map (fun p => p.items) = chunksOf n items0 ∧
      (∀ p ∈ ps, p.header.itemCount = p.items.length ∧ p.items.length ≤ n) ∧
      ps.map (fun p => p.header.isLastFlag) =
        List.replicate (ps.length - 1) false ++ [true] ∧ ps ≠ [] := by
  have hmem := chunksOf_mem n hn items0
  have hsz : ∀ c ∈ chunksOf n items0,
      headerByteSize + itemByteSize * c.length ≤ 1472 := by
    intro c hc
    have h1 : c.length ≤ n := (hmem c hc).1
    have h2 : itemByteSize * c.length ≤ itemByteSize * n :=
      Nat.mul_le_mul_left itemByteSize h1
    omega
  obtain ⟨ps, heq, hlen, hidx⟩ :=
    emitChunksAux_ok mt sym ex ts (chunksOf n items0).length
      (chunksOf n items0) 0 st hsz
  have hKpos : 0 < (chunksOf n items0).length :=
    List.length_pos.mpr (chunksOf_ne_nil n hne)
  refine ⟨ps, ?_, ?_, ?_, ?_, ?_⟩
  · rw [hlen]; exact heq
  · refine List.ext_getElem? ?_
    intro j
    rw [List.getElem?_map, hidx j]
    cases (chunksOf n items0)[j]? <;> rfl
  · intro p hp
    obtain ⟨j, hj⟩ := List.mem_iff_getElem?.mp hp
    rw [hidx j] at hj
    cases hc : (chunksOf n items0)[j]? with
    | none => rw [hc] at hj; cases hj
    | some c =>
      rw [hc] at hj
      have hpc : p = chunkPacket (st.seq + j) st.now sym ex mt ts
          (decide (0 + j = (chunksOf n items0).length - 1)) c :=
        (Option.some.inj hj).symm
      have hcl : c.length ≤ n := (hmem c (mem_of_getElem? hc)).1
      subst hpc
      refine ⟨?_, ?_⟩
      · rw [chunkPacket_itemCount, chunkPacket_items]
        omega
      · rw [chunkPacket_items]
        exact hcl
  · rw [hlen]
    refine List.ext_getElem? ?_
    intro j
    rw [List.getElem?_map, hidx j]
    by_cases hj : j < (chunksOf n items0).length
    · rw [List.getElem?_eq_getElem hj]
      simp only [Option.map_some']
      rw [chunkPacket_isLastFlag]
      by_cases hj2 : j < (chunksOf n items0).length - 1
      · rw [List.getElem?_append_left (by rw [List.length_replicate]; omega)]
        rw [List.getElem?_eq_getElem (by rw [List.length_replicate]; omega)]
        rw [List.getElem_replicate]
        rw [decide_eq_false (by omega : ¬(0 + j = (chunksOf n items0).length - 1))]
      · rw [List.getElem?_append_right (by rw [List.length_replicate]; omega)]
        rw [List.length_replicate]
        have h0 : j - ((chunksOf n items0).length - 1) = 0 := by omega
        rw [h0]
        rw [decide_eq_true (by omega : 0 + j = (chunksOf n items0).length - 1)]
        rfl
    · rw [List.getElem?_eq_none (Nat.le_of_not_lt hj)]
      rw [List.getElem?_eq_none (by
        rw [List.length_append, List.length_replicate, List.length_singleton]
        omega)]
      rfl
  · intro h
    rw [h] at hlen
    simp at hlen
    omega

theorem tradeBatch_emission (batch : StandardizedTradeBatch) (st : BuilderState)
    (hne : batch.trades ≠ []) :
    ∃ ps, buildTradeBatchPackets batch st =
        (.ok ps, { st with seq := st.seq + ps.length }) ∧
      ps.map (fun p => p.items) =
        chunksOf 80 ((sortTradesStable batch.trades).map mkTradeItem) ∧
      (∀ p ∈ ps, p.header.itemCount = p.items.length ∧ p.items.length ≤ 80) ∧
      ps.map (fun p => p.header.isLastFlag) =
        List.replicate (ps.length - 1) false ++ [true] ∧ ps ≠ [] := by
  have hsne : sortTradesStable batch.trades ≠ [] := by
    intro h
    have h1 : batch.trades.length = 0 := by
      rw [← (List.perm_insertionSort tradeLe batch.trades).length_eq]
      exact congrArg List.length h
    exact hne (List.length_eq_zero.mp h1)
  have hne' : (sortTradesStable batch.trades).map mkTradeItem ≠ [] := by
    cases hs : sortTradesStable batch.trades with
    | nil => exact absurd hs hsne
    | cons x xs => exact List.cons_ne_nil _ _
  obtain ⟨ps, heq, hitems, hcount, hflags, hpsne⟩ :=
    emitChunks_spec MESSAGE_TYPE_TRADE_TICK batch.symbol batch.exchange
      batch.exchangeTimestamp 80 ((sortTradesStable batch.trades).map mkTradeItem) st
      (by norm_num) le_rfl (by norm_num [headerByteSize, itemByteSize]) hne'
  refine ⟨ps, ?_, hitems, hcount, hflags, hpsne⟩
  show (if batch.trades = [] then (Except.ok [], st)
    else emitChunksAux MESSAGE_TYPE_TRADE_TICK batch.symbol batch.exchange
      batch.exchangeTimestamp
      ((chunksOf 80 (sortTradesStable batch.trades)).map (List.map mkTradeItem)).length 0
      ((chunksOf 80 (sortTradesStable batch.trades)).map (List.map mkTradeItem)) st) = _
  rw [if_neg hne, ← chunksOf_map]
  exact heq

theorem orderBook_emission (ob : StandardizedOrderBookUpdate) (st : BuilderState)
    (hne : orderBookBidItems ob ++ orderBookAskItems ob ≠ []) :
    ∃ ps, buildOrderBookPackets ob st =
        (.ok ps, { st with seq := st.seq + ps.length }) ∧
      ps.map (fun p => p.items) =
        chunksOf 80 (orderBookBidItems ob ++ orderBookAskItems ob) ∧
      (∀ p ∈ ps, p.header.itemCount = p.items.length ∧ p.items.length ≤ 80) ∧
      ps.map (fun p => p.header.isLastFlag) =
        List.replicate (ps.length - 1) false ++ [true] ∧ ps ≠ [] := by
  obtain ⟨ps, heq, hitems, hcount, hflags, hpsne⟩ :=
    emitChunks_spec MESSAGE_TYPE_ORDER_BOOK ob.symbol ob.exchange ob.timestamp 80
      (orderBookBidItems ob ++ orderBookAskItems ob) st (by norm_num) le_rfl
      (by norm_num [headerByteSize, itemByteSize]) hne
  refine ⟨ps, ?_, hitems, hcount, hflags, hpsne⟩
  show (if orderBookBidItems ob ++ orderBookAskItems ob = [] then (Except.ok [], st)
    else emitChunksAux MESSAGE_TYPE_ORDER_BOOK ob.symbol ob.exchange ob.timestamp
      (chunksOf 80 (orderBookBidItems ob ++ orderBookAskItems ob)).length 0
      (chunksOf 80 (orderBookBidItems ob ++ orderBookAskItems ob)) st) = _
  rw [if_neg hne]
  exact heq

theorem singlePath_emission (trades : List StandardizedTrade) (ts0 : Nat)
    (sym0 ex0 : List Char) (st : BuilderState) (hne : trades ≠ [])
    (huni : ∀ t ∈ trades, t.timestamp = ts0 ∧ t.symbol = sym0 ∧ t.exchange = ex0) :
    ∃ ps, buildTradePacketsBatch trades st =
        (.ok ps, { st with seq := st.seq + ps.length }) ∧
      ps.map (fun p => p.items) =
        chunksOf 50 ((sortTradesStable trades).map mkTradeItem) ∧
      (∀ p ∈ ps, p.header.itemCount = p.items.length ∧ p.items.length ≤ 50) ∧
      ps.map (fun p => p.header.isLastFlag) =
        List.replicate (ps.length - 1) false ++ [true] ∧ ps ≠ [] := by
  have hsperm := List.perm_insertionSort tradeLe trades
  have hsne : sortTradesStable trades ≠ [] := by
    intro h
    have h1 : trades.length = 0 := by
      rw [← hsperm.length_eq]
      exact congrArg List.length h
    exact hne (List.length_eq_zero.mp h1)
  have hne' : (sortTradesStable trades).map mkTradeItem ≠ [] := by
    cases hs : sortTradesStable trades with
    | nil => exact absurd hs hsne
    | cons x xs => exact List.cons_ne_nil _ _
  have hg1 : groupByKey (fun t => t.timestamp) trades = [(ts0, trades)] :=
    groupByKey_const _ ts0 trades hne (fun a ha => (huni a ha).1)
  have hg2 : groupByKey (fun t => (t.symbol, t.exchange)) (sortTradesStable trades) =
      [((sym0, ex0), sortTradesStable trades)] :=
    groupByKey_const _ (sym0, ex0) _ hsne (fun a ha => by
      obtain ⟨-, h2, h3⟩ := huni a (hsperm.mem_iff.mp ha)
      rw [h2, h3])
  obtain ⟨ps, heq, hitems, hcount, hflags, hpsne⟩ :=
    emitChunks_spec MESSAGE_TYPE_TRADE_TICK sym0 ex0 ts0 50
      ((sortTradesStable trades).map mkTradeItem) st (by norm_num) (by norm_num)
      (by norm_num [headerByteSize, itemByteSize]) hne'
  have h2 : bappend (fun st => emitChunksAux MESSAGE_TYPE_TRADE_TICK sym0 ex0 ts0
      (chunksOf 50 ((sortTradesStable trades).map mkTradeItem)).length 0
      (chunksOf 50 ((sortTradesStable trades).map mkTradeItem)) st) bnil st =
      (.ok (ps ++ []), { st with seq := st.seq + ps.length }) :=
    bappend_result heq rfl
  rw [List.append_nil] at h2
  have h3 : buildSymbolGroups ts0 [((sym0, ex0), sortTradesStable trades)] st =
      (.ok ps, { st with seq := st.seq + ps.length }) := h2
  have h4 : buildSymbolGroups ts0 (groupByKey (fun t => (t.symbol, t.exchange))
      (sortTradesStable trades)) st = (.ok ps, { st with seq := st.seq + ps.length }) := by
    rw [hg2]
    exact h3
  have h5 : buildTimestampGroups [(ts0, trades)] st =
      (.ok (ps ++ []), { st with seq := st.seq + ps.length }) :=
    bappend_result h4 rfl
  rw [List.append_nil] at h5
  refine ⟨ps, ?_, hitems, hcount, hflags, hpsne⟩
  show (if trades = [] then (Except.ok [], st)
    else buildTimestampGroups (groupByKey (fun t => t.timestamp) trades) st) = _
  rw [if_neg hne, hg1]
  exact h5

/-- C3: on the batch path and the order-book path the serialized items
are split in item order into chunks of at most 80, on the single-trade
compatibility path (one timestamp/symbol/exchange group) into chunks of
at most 50; every chunk's header stores the chunk length as its item
count, and the is_last bit is set exactly on the final datagram built. -/
theorem claim_C3_chunking :
    (∀ (batch : StandardizedTradeBatch) (st : BuilderState), batch.trades ≠ [] →
      ∃ ps, buildTradeBatchPackets batch st =
          (.ok ps, { st with seq := st.seq + ps.length }) ∧
        ps.map (fun p => p.items) =
          chunksOf 80 ((sortTradesStable batch.trades).map mkTradeItem) ∧
        (∀ p ∈ ps, p.header.itemCount = p.items.length ∧ p.items.length ≤ 80) ∧
        ps.map (fun p => p.header.isLastFlag) =
          List.replicate (ps.length - 1) false ++ [true]) ∧
    (∀ (ob : StandardizedOrderBookUpdate) (st : BuilderState),
      orderBookBidItems ob ++ orderBookAskItems ob ≠ [] →
      ∃ ps, buildOrderBookPackets ob st =
          (.ok ps, { st with seq := st.seq + ps.length }) ∧
        ps.map (fun p => p.items) =
          chunksOf 80 (orderBookBidItems ob ++ orderBookAskItems ob) ∧
        (∀ p ∈ ps, p.header.itemCount = p.items.length ∧ p.items.length ≤ 80) ∧
        ps.map (fun p => p.header.isLastFlag) =
          List.replicate (ps.length - 1) false ++ [true]) ∧
    (∀ (trades : List StandardizedTrade) (ts0 : Nat) (sym0 ex0 : List Char)
        (st : BuilderState), trades ≠ [] →
      (∀ t ∈ trades, t.timestamp = ts0 ∧ t.symbol = sym0 ∧ t.exchange = ex0) →
      ∃ ps, buildTradePacketsBatch trades st =
          (.ok ps, { st with seq := st.seq + ps.length }) ∧
        ps.map (fun p => p.items) =
          chunksOf 50 ((sortTradesStable trades).map mkTradeItem) ∧
        (∀ p ∈ ps, p.header.itemCount = p.items.length ∧ p.items.length ≤ 50) ∧
        ps.map (fun p => p.header.isLastFlag) =
          List.replicate (ps.length - 1) false ++ [true]) := by
  refine ⟨?_, ?_, ?_⟩
  · intro batch st hne
    obtain ⟨ps, heq, hitems, hcount, hflags, -⟩ := tradeBatch_emission batch st hne
    exact ⟨ps, heq, hitems, hcount, hflags⟩
  · intro ob st hne
    obtain ⟨ps, heq, hitems, hcount, hflags, -⟩ := orderBook_emission ob st hne
    exact ⟨ps, heq, hitems, hcount, hflags⟩
  · intro trades ts0 sym0 ex0 st hne huni
    obtain ⟨ps, heq, hitems, hcount, hflags, -⟩ :=
      singlePath_emission trades ts0 sym0 ex0 st hne huni
    exact ⟨ps, heq, hitems, hcount, hflags⟩

theorem claim_C3_witness :
    (demoBatch.trades ≠ [] ∧
      ∃ ps, buildTradeBatchPackets demoBatch (initialBuilderState 0) =
          (.ok ps, { initialBuilderState 0 with
            seq := (initialBuilderState 0).seq + ps.length }) ∧
        ps.map (fun p => p.items) =
          chunksOf 80 ((sortTradesStable demoBatch.trades).map mkTradeItem) ∧
        (∀ p ∈ ps, p.header.itemCount = p.items.length ∧ p.items.length ≤ 80) ∧
        ps.map (fun p => p.header.isLastFlag) =
          List.replicate (ps.length - 1) false ++ [true]) ∧
    (orderBookBidItems demoBook ++ orderBookAskItems demoBook ≠ [] ∧
      ∃ ps, buildOrderBookPackets demoBook (initialBuilderState 0) =
          (.ok ps, { initialBuilderState 0 with
            seq := (initialBuilderState 0).seq + ps.length }) ∧
        ps.map (fun p => p.items) =
          chunksOf 80 (orderBookBidItems demoBook ++ orderBookAskItems demoBook) ∧
        (∀ p ∈ ps, p.header.itemCount = p.items.length ∧ p.items.length ≤ 80) ∧
        ps.map (fun p => p.header.isLastFlag) =
          List.replicate (ps.length - 1) false ++ [true]) ∧
    ((∀ t ∈ demoBatch.trades,
        t.timestamp = 7 ∧ t.symbol = "B".toList ∧ t.exchange = "X".toList) ∧
      ∃ ps, buildTradePacketsBatch demoBatch.trades (initialBuilderState 0) =
          (.ok ps, { initialBuilderState 0 with
            seq := (initialBuilderState 0).seq + ps.length }) ∧
        ps.map (fun p => p.items) =
          chunksOf 50 ((sortTradesStable demoBatch.trades).map mkTradeItem) ∧
        (∀ p ∈ ps, p.header.itemCount = p.items.length ∧ p.items.length ≤ 50) ∧
        ps.map (fun p => p.header.isLastFlag) =
          List.replicate (ps.length - 1) false ++ [true]) :=
  ⟨⟨by decide, claim_C3_chunking.1 demoBatch (initialBuilderState 0) (by decide)⟩,
   ⟨by decide, claim_C3_chunking.2.1 demoBook (initialBuilderState 0) (by decide)⟩,
   ⟨by decide, claim_C3_chunking.2.2 demoBatch.trades 7 ("B".toList) ("X".toList)
      (initialBuilderState 0) (by decide) (by decide)⟩⟩

/-- C4: every trade emission (batch path always, single-trade path for
one timestamp/symbol/exchange group) serializes exactly the stably
sorted trades — taker-buy ticks first in ascending price, then
taker-sell ticks in descending price — and trades of equal side and
price keep their arrival order. -/
theorem claim_C4_trade_ordering :
    (∀ l : List StandardizedTrade, (sortTradesStable l).Pairwise tradePairOrd) ∧
    (∀ (l : List StandardizedTrade) (side : Bool) (price : ℚ),
      (sortTradesStable l).filter (sameSidePrice side price) =
        l.filter (sameSidePrice side price)) ∧
    (∀ (batch : StandardizedTradeBatch) (st : BuilderState) (ps : List UdpPacket)
        (st' : BuilderState), buildTradeBatchPackets batch st = (.ok ps, st') →
      joinItems ps = (sortTradesStable batch.trades).map mkTradeItem) ∧
    (∀ (trades : List StandardizedTrade) (ts0 : Nat) (sym0 ex0 : List Char)
        (st : BuilderState) (ps : List UdpPacket) (st' : BuilderState),
      (∀ t ∈ trades, t.timestamp = ts0 ∧ t.symbol = sym0 ∧ t.exchange = ex0) →
      buildTradePacketsBatch trades st = (.ok ps, st') →
      joinItems ps = (sortTradesStable trades).map mkTradeItem) := by
  refine ⟨sortTrades_pairwise, sortTrades_stable, ?_, ?_⟩
  · intro batch st ps st' h
    by_cases hne : batch.trades = []
    · have hnil : buildTradeBatchPackets batch st = (.ok [], st) := by
        show (if batch.trades = [] then (Except.ok [], st) else _) = _
        rw [if_pos hne]
      rw [hnil] at h
      have hps : ([] : List UdpPacket) = ps := Except.ok.inj (Prod.ext_iff.mp h).1
      rw [← hps, hne]
      rfl
    · obtain ⟨ps', heq, hitems, -, -, -⟩ := tradeBatch_emission batch st hne
      rw [heq] at h
      have hps : ps' = ps := Except.ok.inj (Prod.ext_iff.mp h).1
      rw [← hps]
      show (ps'.map (fun p => p.items)).flatten = _
      rw [hitems, chunksOf_flatten 80 (by norm_num)]
  · intro trades ts0 sym0 ex0 st ps st' huni h
    by_cases hne : trades = []
    · have hnil : buildTradePacketsBatch trades st = (.ok [], st) := by
        show (if trades = [] then (Except.ok [], st) else _) = _
        rw [if_pos hne]
      rw [hnil] at h
      have hps : ([] : List UdpPacket) = ps := Except.ok.inj (Prod.ext_iff.mp h).1
      rw [← hps, hne]
      rfl
    · obtain ⟨ps', heq, hitems, -, -, -⟩ :=
        singlePath_emission trades ts0 sym0 ex0 st hne huni
      rw [heq] at h
      have hps : ps' = ps := Except.ok.inj (Prod.ext_iff.mp h).1
      rw [← hps]
      show (ps'.map (fun p => p.items)).flatten = _
      rw [hitems, chunksOf_flatten 50 (by norm_num)]

theorem claim_C4_witness :
    (sortTradesStable demoBatch.trades).Pairwise tradePairOrd ∧
    ((sortTradesStable demoBatch.trades).filter (sameSidePrice true 3) =
      demoBatch.trades.filter (sameSidePrice true 3)) ∧
    (∃ ps st', buildTradeBatchPackets demoBatch (initialBuilderState 0) =
        (.ok ps, st') ∧
      joinItems ps = (sortTradesStable demoBatch.trades).map mkTradeItem) ∧
    (∃ ps st', buildTradePacketsBatch demoBatch.trades (initialBuilderState 0) =
        (.ok ps, st') ∧
      joinItems ps = (sortTradesStable demoBatch.trades).map mkTradeItem) := by
  obtain ⟨ps1, heq1, -, -, -, -⟩ :=
    tradeBatch_emission demoBatch (initialBuilderState 0) (by decide)
  obtain ⟨ps2, heq2, -, -, -, -⟩ :=
    singlePath_emission demoBatch.trades 7 ("B".toList) ("X".toList)
      (initialBuilderState 0) (by decide) (by decide)
  refine ⟨claim_C4_trade_ordering.1 demoBatch.trades,
    claim_C4_trade_ordering.2.1 demoBatch.trades true 3, ⟨ps1, _, heq1, ?_⟩,
    ⟨ps2, _, heq2, ?_⟩⟩
  · exact claim_C4_trade_ordering.2.2.1 demoBatch (initialBuilderState 0) ps1 _ heq1
  · exact claim_C4_trade_ordering.2.2.2 demoBatch.trades 7 ("B".toList) ("X".toList)
      (initialBuilderState 0) ps2 _ (by decide) heq2

theorem wireQuantity_zero_iff (p q : ℚ) (b : Bool) (hq : 0 ≤ q) :
    (WireItem.new p q b).quantity = 0 ↔ q * (QUANTITY_SCALE : ℚ) < 1 := by
  have hS : (0 : ℚ) ≤ q * (QUANTITY_SCALE : ℚ) :=
    mul_nonneg hq (by norm_num [QUANTITY_SCALE])
  have hfl0 : 0 ≤ ⌊q * (QUANTITY_SCALE : ℚ)⌋ := Int.floor_nonneg.mpr hS
  have hrt : ratTruncate (q * (QUANTITY_SCALE : ℚ)) = ⌊q * (QUANTITY_SCALE : ℚ)⌋ := by
    unfold ratTruncate
    rw [if_pos hS]
  have hv : f64ToI64 (q * (QUANTITY_SCALE : ℚ)) =
      min (2 ^ 63 - 1) ⌊q * (QUANTITY_SCALE : ℚ)⌋ := by
    unfold f64ToI64
    rw [hrt]
    exact max_eq_right (le_min (by norm_num) (by omega))
  have hv0 : 0 ≤ f64ToI64 (q * (QUANTITY_SCALE : ℚ)) := by
    rw [hv]
    exact le_min (by norm_num) hfl0
  have hvlt : f64ToI64 (q * (QUANTITY_SCALE : ℚ)) < 2 ^ 63 := by
    rw [hv]
    have := min_le_left (2 ^ 63 - 1 : Int) ⌊q * (QUANTITY_SCALE : ℚ)⌋
    omega
  have hmod : f64ToI64 (q * (QUANTITY_SCALE : ℚ)) % 2 ^ 64 =
      f64ToI64 (q * (QUANTITY_SCALE : ℚ)) :=
    Int.emod_eq_of_lt hv0 (by omega)
  have hquant : (WireItem.new p q b).quantity =
      (f64ToI64 (q * (QUANTITY_SCALE : ℚ))).toNat := by
    show packQuantityAndFlag (f64ToI64 (q * (QUANTITY_SCALE : ℚ))) b % 2 ^ 63 = _
    unfold packQuantityAndFlag
    rw [hmod]
    cases b with
    | false =>
      show ((f64ToI64 (q * (QUANTITY_SCALE : ℚ))).toNat % 2 ^ 63) % 2 ^ 63 = _
      omega
    | true =>
      show ((f64ToI64 (q * (QUANTITY_SCALE : ℚ))).toNat % 2 ^ 63 + 2 ^ 63) % 2 ^ 63 = _
      omega
  rw [hquant]
  constructor
  · intro h0
    have hz : f64ToI64 (q * (QUANTITY_SCALE : ℚ)) = 0 := by omega
    rw [hv] at hz
    have hfl : ⌊q * (QUANTITY_SCALE : ℚ)⌋ = 0 := by
      rcases le_total (2 ^ 63 - 1 : Int) ⌊q * (QUANTITY_SCALE : ℚ)⌋ with h | h
      · rw [min_eq_left h] at hz
        norm_num at hz
      · rw [min_eq_right h] at hz
        exact hz
    have := Int.floor_eq_zero_iff.mp hfl
    exact this.2
  · intro h1
    have hfl : ⌊q * (QUANTITY_SCALE : ℚ)⌋ = 0 :=
      Int.floor_eq_zero_iff.mpr ⟨hS, h1⟩
    rw [hv, hfl, min_eq_right (by norm_num)]
    rfl

/-- C5 counterexample: an order book whose only level has the positive
quantity `10^-9` — no level has quantity 0, the level passes the
`quantity > 0.0` filter, yet the emitted wire item's masked quantity is
`0` because fixed-point scaling by `10^8` truncates it away. -/
theorem claim_C5_counterexample :
    (∀ l ∈ lowQtyBook.bids ++ lowQtyBook.asks, 0 < l.quantity) ∧
    ∃ ps st', buildOrderBookPackets lowQtyBook (initialBuilderState 0) =
        (.ok ps, st') ∧ ∃ it ∈ joinItems ps, pitemQuantity it = 0 := by
  have hqpos : (0 : ℚ) < 1 / 1000000000 := by norm_num
  have hbid : orderBookBidItems lowQtyBook =
      [PItem.tick (WireItem.new 5 (1 / 1000000000) false)] := by
    show ((lowQtyBook.bids.insertionSort levelDescLe).filter
        (fun l => decide (0 < l.quantity))).map
      (fun l => PItem.tick (WireItem.new l.price l.quantity false)) = _
    simp [lowQtyBook, List.insertionSort, List.orderedInsert, List.filter, hqpos]
  have hask : orderBookAskItems lowQtyBook = [] := rfl
  have hne : orderBookBidItems lowQtyBook ++ orderBookAskItems lowQtyBook ≠ [] := by
    rw [hbid, hask]
    exact List.cons_ne_nil _ _
  obtain ⟨ps, heq, hitems, -, -, -⟩ :=
    orderBook_emission lowQtyBook (initialBuilderState 0) hne
  refine ⟨?_, ps, _, heq, ?_⟩
  · intro l hl
    simp [lowQtyBook] at hl
    rw [hl]
    norm_num
  · have hj : joinItems ps =
        orderBookBidItems lowQtyBook ++ orderBookAskItems lowQtyBook := by
      show (ps.map (fun p => p.items)).flatten = _
      rw [hitems, chunksOf_flatten 80 (by norm_num)]
    rw [hj, hbid, hask]
    refine ⟨PItem.tick (WireItem.new 5 (1 / 1000000000) false), by simp, ?_⟩
    show (WireItem.new 5 (1 / 1000000000) false).quantity = 0
    refine (wireQuantity_zero_iff 5 (1 / 1000000000) false (by norm_num)).mpr ?_
    norm_num [QUANTITY_SCALE]

/-- C5: an order-book emission serializes all bid items (flag `false`,
prices non-increasing) before all ask items (flag `true`, prices
non-decreasing); levels failing the `quantity > 0.0` filter are dropped,
so exactly the positive-quantity levels of each side survive — and a
surviving wire item's masked quantity is zero precisely when the scaled
quantity truncates below one unit of the `10^-8` resolution. -/
theorem claim_C5_order_book :
    (∀ (ob : StandardizedOrderBookUpdate) (st : BuilderState) (ps : List UdpPacket)
        (st' : BuilderState), buildOrderBookPackets ob st = (.ok ps, st') →
      joinItems ps = orderBookBidItems ob ++ orderBookAskItems ob) ∧
    (∀ ob : StandardizedOrderBookUpdate,
      (∀ it ∈ orderBookBidItems ob, pitemFlag it = false) ∧
      (∀ it ∈ orderBookAskItems ob, pitemFlag it = true)) ∧
    (∀ ob : StandardizedOrderBookUpdate,
      (orderBookBidItems ob).Pairwise (fun a b => pitemPrice b ≤ pitemPrice a) ∧
      (orderBookAskItems ob).Pairwise (fun a b => pitemPrice a ≤ pitemPrice b)) ∧
    (∀ ob : StandardizedOrderBookUpdate,
      (orderBookBidItems ob).length =
        (ob.bids.filter (fun l => decide (0 < l.quantity))).length ∧
      (orderBookAskItems ob).length =
        (ob.asks.filter (fun l => decide (0 < l.quantity))).length) ∧
    (∀ (p q : ℚ) (b : Bool), 0 ≤ q →
      ((WireItem.new p q b).quantity = 0 ↔ q * (QUANTITY_SCALE : ℚ) < 1)) := by
  refine ⟨?_, ?_, ?_, ?_, wireQuantity_zero_iff⟩
  · intro ob st ps st' h
    by_cases hall : orderBookBidItems ob ++ orderBookAskItems ob = []
    · have hnil : buildOrderBookPackets ob st = (.ok [], st) := by
        show (if orderBookBidItems ob ++ orderBookAskItems ob = []
          then (Except.ok [], st) else _) = _
        rw [if_pos hall]
      rw [hnil] at h
      have hps : ([] : List UdpPacket) = ps := Except.ok.inj (Prod.ext_iff.mp h).1
      rw [← hps, hall]
      rfl
    · obtain ⟨ps', heq, hitems, -, -, -⟩ := orderBook_emission ob st hall
      rw [heq] at h
      have hps : ps' = ps := Except.ok.inj (Prod.ext_iff.mp h).1
      rw [← hps]
      show (ps'.map (fun p => p.items)).flatten = _
      rw [hitems, chunksOf_flatten 80 (by norm_num)]
  · intro ob
    constructor
    · intro it hit
      obtain ⟨l, -, rfl⟩ := List.mem_map.mp hit
      show (WireItem.new l.price l.quantity false).flag = false
      exact WireItem_flag_new l.price l.quantity false
    · intro it hit
      obtain ⟨l, -, rfl⟩ := List.mem_map.mp hit
      show (WireItem.new l.price l.quantity true).flag = true
      exact WireItem_flag_new l.price l.quantity true
  · intro ob
    constructor
    · refine List.Pairwise.map _ ?_ (bidsKept_pairwise ob)
      intro a b hab
      exact scaledPrice_mono hab
    · refine List.Pairwise.map _ ?_ (asksKept_pairwise ob)
      intro a b hab
      exact scaledPrice_mono hab
  · intro ob
    constructor
    · show (((ob.bids.insertionSort levelDescLe).filter
          (fun l => decide (0 < l.quantity))).map _).length = _
      rw [List.length_map]
      exact (((List.perm_insertionSort levelDescLe ob.bids).filter _)).length_eq
    · show (((ob.asks.insertionSort levelAscLe).filter
          (fun l => decide (0 < l.quantity))).map _).length = _
      rw [List.length_map]
      exact (((List.perm_insertionSort levelAscLe ob.asks).filter _)).length_eq

theorem claim_C5_witness :
    (∃ ps st', buildOrderBookPackets demoBook (initialBuilderState 0) =
        (.ok ps, st') ∧
      joinItems ps = orderBookBidItems demoBook ++ orderBookAskItems demoBook) ∧
    ((0 : ℚ) ≤ 1 / 1000000000 ∧
      ((WireItem.new 5 (1 / 1000000000) false).quantity = 0 ↔
        (1 / 1000000000 : ℚ) * (QUANTITY_SCALE : ℚ) < 1)) := by
  obtain ⟨ps, heq, -, -, -, -⟩ :=
    orderBook_emission demoBook (initialBuilderState 0) (by decide)
  exact ⟨⟨ps, _, heq,
      claim_C5_order_book.1 demoBook (initialBuilderState 0) ps _ heq⟩,
    by norm_num, claim_C5_order_book.2.2.2.2 5 (1 / 1000000000) false (by norm_num)⟩

theorem parseBinanceMessage_markPrice (root : Json)
    (h : binanceEventType root = some ("markPriceUpdate".toList)) :
    parseBinanceMessage (some root) = parseMarkPriceArm (eventObjOf root) := by
  show (match binanceEventType root with
    | none => Except.error CryptoFeederError.jsonParseError
    | some et =>
      if et = "depthUpdate".toList then parseDepthUpdateArm (eventObjOf root)
      else if et = "markPriceUpdate".toList then parseMarkPriceArm (eventObjOf root)
      else if et = "forceOrder".toList then parseForceOrderArm (eventObjOf root)
      else if et = "trade".toList then parseTradeArm (eventObjOf root)
      else if et = "aggTrade".toList then parseAggTradeArm (eventObjOf root)
      else Except.error CryptoFeederError.jsonParseError) =
    parseMarkPriceArm (eventObjOf root)
  rw [h]
  show (if "markPriceUpdate".toList = "depthUpdate".toList then
      parseDepthUpdateArm (eventObjOf root)
    else if "markPriceUpdate".toList = "markPriceUpdate".toList then
      parseMarkPriceArm (eventObjOf root)
    else if "markPriceUpdate".toList = "forceOrder".toList then
      parseForceOrderArm (eventObjOf root)
    else if "markPriceUpdate".toList = "trade".toList then
      parseTradeArm (eventObjOf root)
    else if "markPriceUpdate".toList = "aggTrade".toList then
      parseAggTradeArm (eventObjOf root)
    else Except.error CryptoFeederError.jsonParseError) =
    parseMarkPriceArm (eventObjOf root)
  rw [if_neg (by decide), if_pos rfl]

theorem parseMarkPriceArm_ok_inv {eo : Json} {d : ParsedData}
    (h : parseMarkPriceArm eo = .ok d) :
    ∃ (sym : List Char) (indexF markF fundingF : ℚ) (ts : Nat),
      d = .multi
        [.indexPrice (normalizeBinanceSymbol sym)
           (normalizeExchangeName ("binance".toList) ("futures".toList)) indexF ts,
         .markPrice (normalizeBinanceSymbol sym)
           (normalizeExchangeName ("binance".toList) ("futures".toList)) markF ts,
         .fundingRate (normalizeBinanceSymbol sym)
           (normalizeExchangeName ("binance".toList) ("futures".toList)) fundingF ts] := by
  unfold parseMarkPriceArm at h
  split at h
  · rename_i sym mark index funding heq1 heq2 heq3 heq4
    dsimp only at h
    split at h
    · rename_i markF indexF fundingF heq5 heq6 heq7
      exact ⟨sym, indexF, markF, fundingF, _, (Except.ok.inj h).symm⟩
    · simp at h
  · simp at h

theorem buildMulti_markPrice (s e : List Char) (vi vm vr : ℚ) (ts : Nat)
    (st : BuilderState) :
    buildPackets (.multi [.indexPrice s e vi ts, .markPrice s e vm ts,
        .fundingRate s e vr ts]) st =
      (.ok [chunkPacket st.seq st.now s e MESSAGE_TYPE_INDEX_PRICE ts true
              [PItem.single (f64ToI64 (vi * (PRICE_SCALE : ℚ)))],
            chunkPacket (st.seq + 1) st.now s e MESSAGE_TYPE_MARK_PRICE ts true
              [PItem.single (f64ToI64 (vm * (PRICE_SCALE : ℚ)))],
            chunkPacket (st.seq + 1 + 1) st.now s e MESSAGE_TYPE_FUNDING_RATE ts true
              [PItem.single (f64ToI64 (vr * (FUNDING_RATE_SCALE : ℚ)))]],
       { st with seq := st.seq + 1 + 1 + 1 }) := by
  have h1 := liftOne_result (buildSingleValuePacket_eq s e MESSAGE_TYPE_INDEX_PRICE ts
    (f64ToI64 (vi * (PRICE_SCALE : ℚ))) st)
  have h2 := liftOne_result (buildSingleValuePacket_eq s e MESSAGE_TYPE_MARK_PRICE ts
    (f64ToI64 (vm * (PRICE_SCALE : ℚ))) { st with seq := st.seq + 1 })
  have h3 := liftOne_result (buildSingleValuePacket_eq s e MESSAGE_TYPE_FUNDING_RATE ts
    (f64ToI64 (vr * (FUNDING_RATE_SCALE : ℚ))) { st with seq := st.seq + 1 + 1 })
  have hrest2 : bappend (liftOne (buildSingleValuePacket s e MESSAGE_TYPE_FUNDING_RATE ts
      (f64ToI64 (vr * (FUNDING_RATE_SCALE : ℚ))))) bnil { st with seq := st.seq + 1 + 1 } =
      (.ok ([chunkPacket (st.seq + 1 + 1) st.now s e MESSAGE_TYPE_FUNDING_RATE ts true
        [PItem.single (f64ToI64 (vr * (FUNDING_RATE_SCALE : ℚ)))]] ++ []),
       { st with seq := st.seq + 1 + 1 + 1 }) :=
    bappend_result h3 rfl
  have hrest1 : bappend (liftOne (buildSingleValuePacket s e MESSAGE_TYPE_MARK_PRICE ts
      (f64ToI64 (vm * (PRICE_SCALE : ℚ)))))
      (bappend (liftOne (buildSingleValuePacket s e MESSAGE_TYPE_FUNDING_RATE ts
        (f64ToI64 (vr * (FUNDING_RATE_SCALE : ℚ))))) bnil) { st with seq := st.seq + 1 } =
      (.ok ([chunkPacket (st.seq + 1) st.now s e MESSAGE_TYPE_MARK_PRICE ts true
          [PItem.single (f64ToI64 (vm * (PRICE_SCALE : ℚ)))]] ++
        ([chunkPacket (st.seq + 1 + 1) st.now s e MESSAGE_TYPE_FUNDING_RATE ts true
          [PItem.single (f64ToI64 (vr * (FUNDING_RATE_SCALE : ℚ)))]] ++ [])),
       { st with seq := st.seq + 1 + 1 + 1 }) :=
    bappend_result h2 hrest2
  have hall := bappend_result h1 hrest1
  exact hall

/-- C1: every successfully parsed Binance `markPriceUpdate` frame yields
a `Multi` of three records sharing one nanosecond timestamp, and
building it produces exactly three datagrams with message types 2
(IndexPrice), 3 (MarkPrice) and 4 (FundingRate), each with
`item_count = 1` and `is_last` set, all carrying that same
`exchange_timestamp`. -/
theorem claim_C1_mark_price_pipeline :
    ∀ (root : Json) (d : ParsedData) (st : BuilderState),
      binanceEventType root = some ("markPriceUpdate".toList) →
      parseBinanceMessage (some root) = .ok d →
      ∃ ps st', buildPackets d st = (.ok ps, st') ∧
        ps.map (fun p => p.header.messageType) =
          [MESSAGE_TYPE_INDEX_PRICE, MESSAGE_TYPE_MARK_PRICE,
           MESSAGE_TYPE_FUNDING_RATE] ∧
        (∀ p ∈ ps, p.header.itemCount = 1 ∧ p.header.isLastFlag = true) ∧
        ∃ ts, ∀ p ∈ ps, p.header.exchangeTimestamp = ts := by
  intro root d st hEt hParse
  rw [parseBinanceMessage_markPrice root hEt] at hParse
  obtain ⟨sym, vi, vm, vr, ts, rfl⟩ := parseMarkPriceArm_ok_inv hParse
  refine ⟨_, _, buildMulti_markPrice _ _ vi vm vr ts st, rfl, ?_, ts, ?_⟩
  · intro p hp
    simp only [List.mem_cons, List.not_mem_nil, or_false] at hp
    rcases hp with rfl | rfl | rfl <;>
      exact ⟨by rw [chunkPacket_itemCount, List.length_singleton]; decide,
        by rw [chunkPacket_isLastFlag]⟩
  · intro p hp
    simp only [List.mem_cons, List.not_mem_nil, or_false] at hp
    rcases hp with rfl | rfl | rfl <;> rfl

theorem claim_C1_witness :
    binanceEventType scenario2Frame = some ("markPriceUpdate".toList) ∧
    parseBinanceMessage (some scenario2Frame) = .ok scenario2Parsed ∧
    (∃ ps st', buildPackets scenario2Parsed (initialBuilderState 0) =
        (.ok ps, st') ∧
      ps.map (fun p => p.header.messageType) =
        [MESSAGE_TYPE_INDEX_PRICE, MESSAGE_TYPE_MARK_PRICE,
         MESSAGE_TYPE_FUNDING_RATE] ∧
      (∀ p ∈ ps, p.header.itemCount = 1 ∧ p.header.isLastFlag = true) ∧
      ∃ ts, ∀ p ∈ ps, p.header.exchangeTimestamp = ts) := by
  have hEt : binanceEventType scenario2Frame = some ("markPriceUpdate".toList) := by
    decide
  have hParse : parseBinanceMessage (some scenario2Frame) = .ok scenario2Parsed := by
    with_unfolding_all rfl
  exact ⟨hEt, hParse, claim_C1_mark_price_pipeline scenario2Frame scenario2Parsed
    (initialBuilderState 0) hEt hParse⟩

end CryptoFeeder
